import Mathlib

/-!
Verification of the occurrence scheduling and settlement engine of the
BudgetApp repository (`src/js/scheduling.js`, `src/date-utils.js`, plus the
category-total bookkeeping of `src/js/api.js` and the main controller).

Modelling conventions:
* A JavaScript `Date` restricted to calendar-day granularity is modelled as
  `Option DateTriple`, where a `DateTriple` is `(fullYear, monthIndex, day)`
  in canonical form (as produced by the `Date` constructor) and `none` is
  an Invalid Date (`NaN` time value).  The `Date(year, month, day)`
  constructor is modelled by `mkJSDate`, including overflow carrying
  (month 13 rolls into the next year, Feb 31 into March, day 0 into the
  previous month) and the two-digit-year adjustment (years 0..99 map to
  1900..1999).
* JavaScript string comparison (`<` on strings, used for due-date checks
  and `Array.prototype.sort`) compares UTF-16 code units; all strings
  involved are ASCII, so it is modelled by `charListLt` on code points.
* Currency amounts are modelled in exact rationals `ℚ`; `Math.round` is
  the mathematical round-half-up.  Obligation `amount` fields are
  `Option ℚ`, with `none` standing for a missing or unparseable amount
  (where `parseFloat` yields `NaN`, which `|| 0` turns into `0`).
* Mutating functions are modelled as functions returning the updated
  record.
-/

namespace Budget

/-- A canonical calendar date: `(fullYear, monthIndex 0..11, dayOfMonth)`. -/
abbrev DateTriple := Int × Int × Int

/-- A JavaScript `Date` value at day granularity; `none` is an Invalid Date. -/
abbrev JSDate := Option DateTriple

/-- Proleptic Gregorian leap-year test, as used by JavaScript dates. -/
def isLeapYear (y : Int) : Bool :=
  (y % 4 = 0 && y % 100 ≠ 0) || y % 400 = 0

/-- Number of days in month `m` (0-based index) of year `y`. -/
def daysInMonth (y : Int) (m : Int) : Int :=
  if m = 1 then (if isLeapYear y then 29 else 28)
  else if m = 3 ∨ m = 5 ∨ m = 8 ∨ m = 10 then 30
  else 31

/-- Normalize an out-of-range day-of-month by carrying across month
boundaries, as the `Date` constructor does.  The month index `m` is
expected to be already in `0..11`; the fuel bounds the number of carries
(each carry moves at least 28 days, so a small fuel suffices for all
inputs this development evaluates). -/
def carryDays : Nat → Int → Int → Int → DateTriple
  | 0, y, m, d => (y, m, d)
  | fuel + 1, y, m, d =>
    if d < 1 then
      let y2 := if m = 0 then y - 1 else y
      let m2 := if m = 0 then (11 : Int) else m - 1
      carryDays fuel y2 m2 (d + daysInMonth y2 m2)
    else if d > daysInMonth y m then
      let y2 := if m = 11 then y + 1 else y
      let m2 := if m = 11 then (0 : Int) else m + 1
      carryDays fuel y2 m2 (d - daysInMonth y m)
    else (y, m, d)

/-- ECMAScript `MakeDay`: normalize an arbitrary `(year, month, day)` to a
canonical calendar date (month overflow carries into the year with floor
semantics, then the day is carried across month boundaries). -/
def mkDateTriple (y m d : Int) : DateTriple :=
  carryDays 12 (y + m / 12) (m % 12) d

/-- The `new Date(year, monthIndex, day)` constructor: years `0..99` are
interpreted as `1900..1999`, then the components are normalized. -/
def mkJSDate (y m d : Int) : DateTriple :=
  mkDateTriple (if 0 ≤ y ∧ y ≤ 99 then y + 1900 else y) m d

/-- Chronological comparison of two canonical dates (the order of their
time values): lexicographic on `(year, month, day)`. -/
def tripleLe (a b : DateTriple) : Bool :=
  decide (a.1 < b.1 ∨ (a.1 = b.1 ∧ (a.2.1 < b.2.1 ∨ (a.2.1 = b.2.1 ∧ a.2.2 ≤ b.2.2))))

/-- JavaScript `dateA >= dateB` on `Date` values: `false` whenever either
side is an Invalid Date (`NaN` compares false). -/
def jsDateGE (a b : JSDate) : Bool :=
  match a, b with
  | some x, some y => tripleLe y x
  | _, _ => false

/-- Linearized month counter used to reason about month iteration. -/
def monthIdx (y m : Int) : Int := y * 12 + m

/-! ### Characters, digit strings and ISO date formatting -/

/-- JavaScript string `<` on ASCII strings: lexicographic comparison of
code points, with a strict prefix comparing smaller. -/
def charListLt : List Char → List Char → Bool
  | [], [] => false
  | [], _ :: _ => true
  | _ :: _, [] => false
  | a :: as, b :: bs =>
    if a.toNat < b.toNat then true
    else if b.toNat < a.toNat then false
    else charListLt as bs

/-- JavaScript `s1 < s2` for strings. -/
def strLt (a b : String) : Bool := charListLt a.data b.data

/-- Decimal digit character for a value `0..9`. -/
def digitCh (d : Nat) : Char := Char.ofNat (48 + d)

/-- Decimal rendering of a natural number, accumulator form; the fuel
bounds the number of digits (10 covers every number this development
renders). -/
def natToCharsAux : Nat → Nat → List Char → List Char
  | 0, _, acc => acc
  | fuel + 1, n, acc =>
    let acc2 := digitCh (n % 10) :: acc
    if n < 10 then acc2 else natToCharsAux fuel (n / 10) acc2

/-- Decimal rendering of a natural number (JavaScript `String(n)`). -/
def natToChars (n : Nat) : List Char := natToCharsAux 10 n []

/-- Decimal rendering of an integer (JavaScript `String(n)`). -/
def intToChars (i : Int) : List Char :=
  if i < 0 then '-' :: natToChars (-i).toNat else natToChars i.toNat

/-- JavaScript `String(n).padStart(2, '0')`. -/
def pad2 (i : Int) : List Char :=
  let cs := intToChars i
  if cs.length < 2 then '0' :: cs else cs

/-- Function `formatDateString` from `date-utils.js`: empty string for an Invalid
Date, otherwise `YYYY-MM-DD` with zero-padded month and day. -/
def formatDateString (date : JSDate) : String :=
  match date with
  | none => ""
  | some (y, m, d) => ⟨intToChars y ++ '-' :: (pad2 (m + 1) ++ '-' :: pad2 d)⟩

/-! ### Date parsing (`parseDateString` from `date-utils.js`) -/

/-- The regex class `\d`: ASCII digits only. -/
def isDigitChar (c : Char) : Bool := 48 ≤ c.toNat && c.toNat ≤ 57

/-- The separator class `[\/.-]` of the localized date pattern. -/
def isSepChar (c : Char) : Bool := c = '/' || c = '.' || c = '-'

/-- JavaScript `String.prototype.trim` restricted to the common ASCII
whitespace characters (space, tab, line feed, carriage return, vertical
tab, form feed). -/
def isJsWhitespace (c : Char) : Bool :=
  c = ' ' || c = '\t' || c = '\n' || c = '\r' || c.toNat = 11 || c.toNat = 12

/-- Trim leading and trailing whitespace. -/
def trimChars (cs : List Char) : List Char :=
  ((cs.dropWhile isJsWhitespace).reverse.dropWhile isJsWhitespace).reverse

/-- JavaScript `Number` applied to a string of decimal digits. -/
def digitsVal (cs : List Char) : Nat :=
  cs.foldl (fun a c => a * 10 + (c.toNat - 48)) 0

/-- Maximal leading run of digits and the remaining characters (how the
regex engine matches a greedy `\d{1,n}` followed by a non-digit or the
pattern end). -/
def takeDigits : List Char → List Char × List Char
  | [] => ([], [])
  | c :: cs =>
    if isDigitChar c then
      let p := takeDigits cs
      (c :: p.1, p.2)
    else ([], c :: cs)

/-- Match `/^\d{4}-\d{2}-\d{2}$/` and extract `(year, month, day)` as
`value.split('-').map(Number)` does. -/
def parseIso : List Char → Option (Int × Int × Int)
  | [y1, y2, y3, y4, '-', m1, m2, '-', d1, d2] =>
    if isDigitChar y1 && isDigitChar y2 && isDigitChar y3 && isDigitChar y4 &&
        isDigitChar m1 && isDigitChar m2 && isDigitChar d1 && isDigitChar d2 then
      some ((digitsVal [y1, y2, y3, y4] : Int), (digitsVal [m1, m2] : Int),
        (digitsVal [d1, d2] : Int))
    else none
  | _ => none

/-- Match `/^(\d{1,2})[\/.-](\d{1,2})[\/.-](\d{4})$/` and extract
`(day, month, year)`. -/
def parseDMY (cs : List Char) : Option (Int × Int × Int) :=
  if (takeDigits cs).1.length = 0 ∨ (takeDigits cs).1.length > 2 then none
  else
    match (takeDigits cs).2 with
    | [] => none
    | s1 :: r2 =>
      if isSepChar s1 then
        if (takeDigits r2).1.length = 0 ∨ (takeDigits r2).1.length > 2 then none
        else
          match (takeDigits r2).2 with
          | [] => none
          | s2 :: r4 =>
            if isSepChar s2 then
              if (takeDigits r4).1.length = 4 ∧ (takeDigits r4).2 = [] then
                some ((digitsVal (takeDigits cs).1 : Int), (digitsVal (takeDigits r2).1 : Int),
                  (digitsVal (takeDigits r4).1 : Int))
              else none
            else none
      else none

/-- Extract `(year, month, day)` from a trimmed date string: the ISO form
is tried first, then the localized `D[\/.-]M[\/.-]YYYY` form. -/
def parseDateFields (value : List Char) : Option (Int × Int × Int) :=
  match parseIso value with
  | some f => some f
  | none =>
    match parseDMY value with
    | some (d, m, y) => some (y, m, d)
    | none => none

/-- Function `parseDateString` from `date-utils.js`: reject empty input, extract
the textual `(year, month, day)`, construct `new Date(year, month - 1,
day)` and verify that the constructed date's components round-trip to the
parsed numbers; otherwise the result is an Invalid Date (`none`). -/
def parseDateString (dateString : String) : JSDate :=
  match dateString.data with
  | [] => none
  | cs =>
    if trimChars cs = [] then none
    else
      match parseDateFields (trimChars cs) with
      | none => none
      | some (year, month, day) =>
        if (mkJSDate year (month - 1) day).1 = year ∧
            (mkJSDate year (month - 1) day).2.1 = month - 1 ∧
            (mkJSDate year (month - 1) day).2.2 = day then
          some (mkJSDate year (month - 1) day)
        else none

/-- Function `parseDateString` lifted to a possibly-non-string argument: a
non-string (or absent) argument fails the `typeof` guard and yields an
Invalid Date. -/
def parseDateValue (v : Option String) : JSDate :=
  match v with
  | none => none
  | some s => parseDateString s

/-! ### Obligation records (`scheduling.js`)

A `Payment` mirrors the duck-typed payment record: `months` is
`Option (List Int)` with `none` standing for a missing or non-array
value, likewise `paidDates`; `amount` is `none` when `parseFloat` on the
stored value yields `NaN` (missing or unparseable); `deleteFlag` models
the transient `_delete` marker.  Only the fields the scheduling engine
reads are modelled. -/

structure Payment where
  date : String
  amount : Option ℚ := none
  frequency : String := ""
  months : Option (List Int) := none
  paidDates : Option (List String) := none
  deleteFlag : Bool := false
deriving Repr, DecidableEq

/-- An `Income` record: same shape as `Payment` but with `receivedDates`
and no `months` field (income frequencies are `once`/`monthly` only). -/
structure Income where
  date : String
  amount : Option ℚ := none
  frequency : String := ""
  receivedDates : Option (List String) := none
  deleteFlag : Bool := false
deriving Repr, DecidableEq

/-- Function `isSameMonthAndYear`: `getMonth()`/`getFullYear()` of an Invalid Date
are `NaN` and `NaN === x` is false, so any comparison involving an
Invalid Date is false. -/
def isSameMonthAndYear (dateToCheck referenceDate : JSDate) : Bool :=
  match dateToCheck, referenceDate with
  | some a, some b => decide (a.2.1 = b.2.1 ∧ a.1 = b.1)
  | _, _ => false

/-- Function `normalizeDate`: clearing the time-of-day components is the identity
in this day-granularity model. -/
def normalizeDate (date : JSDate) : JSDate := date

/-- Function `getMonthOccurrenceDate(baseDate, year, monthIndex)`: clamp the
anchor's day-of-month to the last actual day of the target month,
computed as `new Date(year, monthIndex + 1, 0).getDate()`.  An invalid
base date propagates (`getDate()` is `NaN`, so the constructed date is
Invalid). -/
def getMonthOccurrenceDate (baseDate : JSDate) (year monthIndex : Int) : JSDate :=
  match baseDate with
  | none => none
  | some b =>
    let lastDayOfMonth := (mkJSDate year (monthIndex + 1) 0).2.2
    some (mkJSDate year monthIndex (min b.2.2 lastDayOfMonth))

/-- The expression `new Date(monthDate.getFullYear(), monthDate.getMonth(), 1)` wrapped
in `normalizeDate`: the first day of the month containing `monthDate`
(Invalid if `monthDate` is Invalid). -/
def monthStartOf (monthDate : JSDate) : JSDate :=
  match monthDate with
  | none => none
  | some t => some (mkJSDate t.1 t.2.1 1)

/-- Function `isOccurrencePaid`: membership of the occurrence's ISO string in
`paidDates`, false when `paidDates` is not an array. -/
def isOccurrencePaid (payment : Payment) (occurrenceDateString : String) : Bool :=
  match payment.paidDates with
  | some l => l.contains occurrenceDateString
  | none => false

/-- Function `isIncomeOccurrenceReceived`: membership in `receivedDates`. -/
def isIncomeOccurrenceReceived (income : Income) (occurrenceDateString : String) : Bool :=
  match income.receivedDates with
  | some l => l.contains occurrenceDateString
  | none => false

/-- Insert a string into a list, keeping elements that compare smaller in
front (one step of insertion sort under JavaScript string order). -/
def insertOccurrence (s : String) : List String → List String
  | [] => [s]
  | t :: ts => if strLt t s then t :: insertOccurrence s ts else s :: t :: ts

/-- JavaScript `Array.prototype.sort()` on an array of strings sorts by JavaScript
string comparison; since equal strings are identical, the sorted
permutation is unique as a list and insertion sort computes it. -/
def sortOccurrences (l : List String) : List String := l.foldr insertOccurrence []

/-- Function `addPaidOccurrence`: replace a non-array `paidDates` with `[]`, then,
if the occurrence is not already present, push it and sort. -/
def addPaidOccurrence (payment : Payment) (occurrenceDateString : String) : Payment :=
  let l := match payment.paidDates with | some l => l | none => []
  if l.contains occurrenceDateString then { payment with paidDates := some l }
  else { payment with paidDates := some (sortOccurrences (l ++ [occurrenceDateString])) }

/-- Function `addReceivedOccurrence`: the income analogue. -/
def addReceivedOccurrence (income : Income) (occurrenceDateString : String) : Income :=
  let l := match income.receivedDates with | some l => l | none => []
  if l.contains occurrenceDateString then { income with receivedDates := some l }
  else { income with receivedDates := some (sortOccurrences (l ++ [occurrenceDateString])) }

/-- Function `getIncomeOccurrenceForMonth`: `once` yields the anchor date when it
falls in the target month; `monthly` yields the clamped day when the
occurrence is on or after the anchor; anything else yields `null`. -/
def getIncomeOccurrenceForMonth (income : Income) (monthDate : JSDate) : Option String :=
  let baseDate := parseDateString income.date
  let monthStart := normalizeDate (monthStartOf monthDate)
  if income.frequency = "once" then
    if isSameMonthAndYear baseDate monthStart then some (formatDateString baseDate) else none
  else if income.frequency = "monthly" then
    match monthStart with
    | none => none
    | some ms =>
      let occurrenceDate := getMonthOccurrenceDate baseDate ms.1 ms.2.1
      if jsDateGE occurrenceDate baseDate then some (formatDateString occurrenceDate) else none
  else none

/-- Function `getPaymentOccurrenceForMonth`: like the income version, plus the
`selected` frequency, whose occurrence exists only when the target
month's 1-based number is a member of the `months` array. -/
def getPaymentOccurrenceForMonth (payment : Payment) (monthDate : JSDate) : Option String :=
  let baseDate := parseDateString payment.date
  let monthStart := normalizeDate (monthStartOf monthDate)
  if payment.frequency = "once" then
    if isSameMonthAndYear baseDate monthStart then some (formatDateString baseDate) else none
  else if payment.frequency = "monthly" then
    match monthStart with
    | none => none
    | some ms =>
      let occurrenceDate := getMonthOccurrenceDate baseDate ms.1 ms.2.1
      if jsDateGE occurrenceDate baseDate then some (formatDateString occurrenceDate) else none
  else if payment.frequency = "selected" then
    match monthStart with
    | none => none
    | some ms =>
      let selectedMonth := ms.2.1 + 1
      match payment.months with
      | none => none
      | some l =>
        if l.contains selectedMonth then
          let occurrenceDate := getMonthOccurrenceDate baseDate ms.1 ms.2.1
          if jsDateGE occurrenceDate baseDate then some (formatDateString occurrenceDate)
          else none
        else none
  else none

/-- The settlement amount `parseFloat(record.amount) || 0`: zero for a
missing or unparseable amount. -/
def parseFloatOrZero (amount : Option ℚ) : ℚ :=
  match amount with
  | some a => a
  | none => 0

/-- Function `settlePaymentOccurrence`: returns the updated payment and the
balance delta.  An already-settled occurrence is a no-op returning
`0`; a `once` payment is flagged for deletion; otherwise the occurrence
is recorded as paid. -/
def settlePaymentOccurrence (payment : Payment) (occurrenceDateString : String) :
    Payment × ℚ :=
  if isOccurrencePaid payment occurrenceDateString then (payment, 0)
  else if payment.frequency = "once" then
    ({ payment with deleteFlag := true }, parseFloatOrZero payment.amount)
  else (addPaidOccurrence payment occurrenceDateString, parseFloatOrZero payment.amount)

/-- Function `settleIncomeOccurrence`: the income analogue. -/
def settleIncomeOccurrence (income : Income) (occurrenceDateString : String) :
    Income × ℚ :=
  if isIncomeOccurrenceReceived income occurrenceDateString then (income, 0)
  else if income.frequency = "once" then
    ({ income with deleteFlag := true }, parseFloatOrZero income.amount)
  else (addReceivedOccurrence income occurrenceDateString, parseFloatOrZero income.amount)

/-- Fuel bound for the due-occurrence month scan; large enough for every
anchor/reference pair with four-digit years. -/
def dueScanFuel : Nat := 200000

/-- The body of one iteration of the due-occurrence month scan: skip the
month when it has no occurrence or the occurrence is settled; collect the
occurrence when due (strictly before the reference date string, or equal
to it when `includeToday`). -/
def dueScanStep (occ : Option String) (settled : String → Bool) (todayString : String)
    (includeToday : Bool) (rest : List String) : List String :=
  match occ with
  | none => rest
  | some occurrence =>
    if settled occurrence then rest
    else if strLt occurrence todayString || (includeToday && occurrence == todayString) then
      occurrence :: rest
    else rest

/-- The month-iteration loop shared by the two due-occurrence scanners:
starting from `probeMonth` (the first day of a month) and while it is on
or before `targetMonth`, run one scan step for the month and step to the
first day of the next month. -/
def dueScanLoop (occFn : DateTriple → Option String) (settled : String → Bool)
    (todayString : String) (includeToday : Bool) (targetMonth : DateTriple) :
    Nat → DateTriple → List String
  | 0, _ => []
  | fuel + 1, probeMonth =>
    if tripleLe probeMonth targetMonth then
      dueScanStep (occFn probeMonth) settled todayString includeToday
        (dueScanLoop occFn settled todayString includeToday targetMonth fuel
          (mkJSDate probeMonth.1 (probeMonth.2.1 + 1) 1))
    else []

/-- Function `getDuePaymentOccurrencesUpToDate`: empty when the anchor does not
parse; for `once`, the single occurrence when due and unpaid; otherwise
scan every month from the anchor's month through the reference month. -/
def getDuePaymentOccurrencesUpToDate (payment : Payment) (todayDate : JSDate)
    (includeTodayOccurrence : Bool) : List String :=
  let todayString := formatDateString todayDate
  match parseDateString payment.date with
  | none => []
  | some baseDate =>
    if payment.frequency = "once" then
      let occurrence := formatDateString (some baseDate)
      let isDue := strLt occurrence todayString ||
        (includeTodayOccurrence && occurrence == todayString)
      if isDue && !(isOccurrencePaid payment occurrence) then [occurrence] else []
    else
      match todayDate with
      | none => []
      | some today =>
        dueScanLoop (fun probe => getPaymentOccurrenceForMonth payment (some probe))
          (fun o => isOccurrencePaid payment o) todayString includeTodayOccurrence
          (mkJSDate today.1 today.2.1 1) dueScanFuel
          (mkJSDate baseDate.1 baseDate.2.1 1)

/-- Function `getDueIncomeOccurrencesUpToDate`: the income analogue. -/
def getDueIncomeOccurrencesUpToDate (income : Income) (todayDate : JSDate)
    (includeTodayOccurrence : Bool) : List String :=
  let todayString := formatDateString todayDate
  match parseDateString income.date with
  | none => []
  | some baseDate =>
    if income.frequency = "once" then
      let occurrence := formatDateString (some baseDate)
      let isDue := strLt occurrence todayString ||
        (includeTodayOccurrence && occurrence == todayString)
      if isDue && !(isIncomeOccurrenceReceived income occurrence) then [occurrence] else []
    else
      match todayDate with
      | none => []
      | some today =>
        dueScanLoop (fun probe => getIncomeOccurrenceForMonth income (some probe))
          (fun o => isIncomeOccurrenceReceived income o) todayString includeTodayOccurrence
          (mkJSDate today.1 today.2.1 1) dueScanFuel
          (mkJSDate baseDate.1 baseDate.2.1 1)

/-! ### Ledger entries and category totals -/

/-- A ledger entry, restricted to the fields `buildCategoryTotals`
reads: `category` is `none` for a missing value (an empty string is
likewise falsy and falls back to `"inne"`), `amount` is the entry's
numeric amount in exact rationals. -/
structure LedgerEntry where
  amount : ℚ
  category : Option String := none
deriving Repr, DecidableEq

/-- Function `roundCurrency` from `api.js`: `Math.round(value * 100) / 100`,
where `Math.round` rounds half toward positive infinity. -/
def roundCurrency (value : ℚ) : ℚ := (⌊value * 100 + 1 / 2⌋ : ℚ) / 100

/-- The fallback `entry.category || 'inne'`: a missing or empty category falls back to
`"inne"`. -/
def jsCategory (e : LedgerEntry) : String :=
  match e.category with
  | none => "inne"
  | some s => if s = "" then "inne" else s

/-- One step of `buildCategoryTotals`: add the entry's amount to its
category's running total and round the total.  The totals object is
modelled as a total function that is `0` on absent categories
(`totals[category] || 0`). -/
def totalsStep (totals : String → ℚ) (entry : LedgerEntry) : String → ℚ :=
  let category := jsCategory entry
  fun c => if c = category then roundCurrency (totals category + entry.amount) else totals c

/-- Function `buildCategoryTotals` proper: fold the step over all entries starting
from the empty totals object. -/
def buildCategoryTotals (entries : List LedgerEntry) : String → ℚ :=
  entries.foldl totalsStep (fun _ => 0)

/-! ### Canonical-date lemmas -/

/-- A triple is canonical when its month index is in `0..11` and its day
is in `1..daysInMonth`. -/
def isCanon (t : DateTriple) : Prop :=
  0 ≤ t.2.1 ∧ t.2.1 ≤ 11 ∧ 1 ≤ t.2.2 ∧ t.2.2 ≤ daysInMonth t.1 t.2.1

theorem daysInMonth_bounds (y m : Int) : 28 ≤ daysInMonth y m ∧ daysInMonth y m ≤ 31 := by
  unfold daysInMonth
  split_ifs <;> omega

theorem carryDays_succ (fuel : Nat) (y m d : Int) :
    carryDays (fuel + 1) y m d =
      if d < 1 then
        carryDays fuel (if m = 0 then y - 1 else y) (if m = 0 then (11 : Int) else m - 1)
          (d + daysInMonth (if m = 0 then y - 1 else y) (if m = 0 then (11 : Int) else m - 1))
      else if d > daysInMonth y m then
        carryDays fuel (if m = 11 then y + 1 else y) (if m = 11 then (0 : Int) else m + 1)
          (d - daysInMonth y m)
      else (y, m, d) := rfl

theorem carryDays_fix (fuel : Nat) (y m d : Int) (hd1 : 1 ≤ d)
    (hd2 : d ≤ daysInMonth y m) : carryDays fuel y m d = (y, m, d) := by
  cases fuel with
  | zero => rfl
  | succ n =>
    rw [carryDays_succ, if_neg (by omega), if_neg (by omega)]

theorem carryDays_canonical : ∀ (fuel : Nat) (y m d : Int), 0 ≤ m → m ≤ 11 → 1 ≤ d →
    d ≤ 28 * fuel + 28 → isCanon (carryDays fuel y m d) := by
  intro fuel
  induction fuel with
  | zero =>
    intro y m d hm0 hm1 hd1 hd2
    have hb := daysInMonth_bounds y m
    simp only [carryDays]
    exact ⟨hm0, hm1, hd1, by show d ≤ daysInMonth y m; omega⟩
  | succ n ih =>
    intro y m d hm0 hm1 hd1 hd2
    rw [carryDays_succ, if_neg (by omega)]
    by_cases h2 : d > daysInMonth y m
    · rw [if_pos h2]
      have hb := daysInMonth_bounds y m
      by_cases hm : m = 11
      · rw [if_pos hm, if_pos hm]
        exact ih (y + 1) 0 (d - daysInMonth y m) (by omega) (by omega) (by omega) (by omega)
      · rw [if_neg hm, if_neg hm]
        exact ih y (m + 1) (d - daysInMonth y m) (by omega) (by omega) (by omega) (by omega)
    · rw [if_neg h2]
      have hb := daysInMonth_bounds y m
      exact ⟨hm0, hm1, hd1, by show d ≤ daysInMonth y m; omega⟩

theorem mkDateTriple_canonical (y m d : Int) (hd0 : 0 ≤ d) (hd : d ≤ 300) :
    isCanon (mkDateTriple y m d) := by
  unfold mkDateTriple
  have hm0 : 0 ≤ m % 12 := by omega
  have hm1 : m % 12 ≤ 11 := by omega
  by_cases hd1 : 1 ≤ d
  · exact carryDays_canonical 12 (y + m / 12) (m % 12) d hm0 hm1 hd1 (by omega)
  · have hd' : d = 0 := by omega
    subst hd'
    rw [show (12 : Nat) = 11 + 1 from rfl, carryDays_succ, if_pos (by omega)]
    set y2 := if m % 12 = 0 then y + m / 12 - 1 else y + m / 12 with hy2
    set m2 := if m % 12 = 0 then (11 : Int) else m % 12 - 1 with hm2
    have hb := daysInMonth_bounds y2 m2
    have hm2b : 0 ≤ m2 ∧ m2 ≤ 11 := by
      rw [hm2]; split_ifs <;> omega
    exact carryDays_canonical 11 y2 m2 (0 + daysInMonth y2 m2) hm2b.1 hm2b.2 (by omega)
      (by omega)

theorem mkJSDate_canonical (y m d : Int) (hd0 : 0 ≤ d) (hd : d ≤ 300) :
    isCanon (mkJSDate y m d) := by
  unfold mkJSDate
  exact mkDateTriple_canonical _ m d hd0 hd

theorem mkJSDate_eval (y m d : Int) (hy : 100 ≤ y) (hm0 : 0 ≤ m) (hm1 : m ≤ 11)
    (hd1 : 1 ≤ d) (hd2 : d ≤ daysInMonth y m) : mkJSDate y m d = (y, m, d) := by
  have h1 : ¬(0 ≤ y ∧ y ≤ 99) := by omega
  have h2 : m / 12 = 0 := by omega
  have h3 : m % 12 = m := by omega
  rw [mkJSDate, if_neg h1, mkDateTriple, h2, h3, add_zero]
  exact carryDays_fix 12 y m d hd1 hd2

theorem mkJSDate_lastday (y m : Int) (hy : 100 ≤ y) (hm0 : 0 ≤ m) (hm1 : m ≤ 11) :
    mkJSDate y (m + 1) 0 = (y, m, daysInMonth y m) := by
  have h1 : ¬(0 ≤ y ∧ y ≤ 99) := by omega
  rw [mkJSDate, if_neg h1, mkDateTriple]
  have hb : ∀ y' m', 28 ≤ daysInMonth y' m' ∧ daysInMonth y' m' ≤ 31 := daysInMonth_bounds
  by_cases hm : m = 11
  · subst hm
    have h2 : (11 + 1 : Int) / 12 = 1 := by omega
    have h3 : (11 + 1 : Int) % 12 = 0 := by omega
    rw [h2, h3, show (12 : Nat) = 11 + 1 from rfl, carryDays_succ, if_pos (by omega),
      if_pos rfl, if_pos rfl]
    have := (hb (y + 1 - 1) 11).1
    rw [carryDays_fix 11 _ _ _ (by omega) (by omega)]
    norm_num
  · have h2 : (m + 1) / 12 = 0 := by omega
    have h3 : (m + 1) % 12 = m + 1 := by omega
    rw [h2, h3, add_zero, show (12 : Nat) = 11 + 1 from rfl, carryDays_succ,
      if_pos (by omega), if_neg (by omega), if_neg (by omega)]
    have := (hb y (m + 1 - 1)).1
    rw [carryDays_fix 11 _ _ _ (by omega) (by simp only [add_sub_cancel_right]; omega)]
    norm_num

theorem mkJSDate_monthStep (y m : Int) (hy : 100 ≤ y) (hm0 : 0 ≤ m) (hm1 : m ≤ 11) :
    mkJSDate y (m + 1) 1 =
      (if m = 11 then ((y + 1 : Int), (0 : Int), (1 : Int)) else (y, m + 1, 1)) := by
  have h1 : ¬(0 ≤ y ∧ y ≤ 99) := by omega
  rw [mkJSDate, if_neg h1, mkDateTriple]
  by_cases hm : m = 11
  · subst hm
    have h2 : (11 + 1 : Int) / 12 = 1 := by omega
    have h3 : (11 + 1 : Int) % 12 = 0 := by omega
    rw [h2, h3, if_pos rfl]
    exact carryDays_fix 12 (y + 1) 0 1 (by omega) (by exact (daysInMonth_bounds _ _).1.trans' (by omega))
  · have h2 : (m + 1) / 12 = 0 := by omega
    have h3 : (m + 1) % 12 = m + 1 := by omega
    rw [h2, h3, add_zero, if_neg hm]
    exact carryDays_fix 12 y (m + 1) 1 (by omega)
      (by exact (daysInMonth_bounds _ _).1.trans' (by omega))

/-! ### Lemmas about JavaScript string comparison -/

theorem charListLt_cons (a b : Char) (as bs : List Char) :
    charListLt (a :: as) (b :: bs) =
      (if a.toNat < b.toNat then true
       else if b.toNat < a.toNat then false
       else charListLt as bs) := rfl

theorem charListLt_append_same : ∀ (l r₁ r₂ : List Char), charListLt r₁ r₂ = true →
    charListLt (l ++ r₁) (l ++ r₂) = true := by
  intro l
  induction l with
  | nil => intro r₁ r₂ h; simpa using h
  | cons a as ih =>
    intro r₁ r₂ h
    rw [List.cons_append, List.cons_append, charListLt_cons, if_neg (Nat.lt_irrefl _),
      if_neg (Nat.lt_irrefl _)]
    exact ih r₁ r₂ h

theorem charListLt_append_len : ∀ (l₁ l₂ r₁ r₂ : List Char), l₁.length = l₂.length →
    charListLt l₁ l₂ = true → charListLt (l₁ ++ r₁) (l₂ ++ r₂) = true := by
  intro l₁
  induction l₁ with
  | nil =>
    intro l₂ r₁ r₂ hlen h
    cases l₂ with
    | nil => simp [charListLt] at h
    | cons b bs => simp at hlen
  | cons a as ih =>
    intro l₂ r₁ r₂ hlen h
    cases l₂ with
    | nil => simp at hlen
    | cons b bs =>
      rw [charListLt_cons] at h
      rw [List.cons_append, List.cons_append, charListLt_cons]
      by_cases h1 : a.toNat < b.toNat
      · rw [if_pos h1]
      · rw [if_neg h1] at h ⊢
        by_cases h2 : b.toNat < a.toNat
        · rw [if_pos h2] at h; exact absurd h (by simp)
        · rw [if_neg h2] at h ⊢
          exact ih bs r₁ r₂ (by simpa using hlen) h

theorem charListLt_trans : ∀ (a b c : List Char), charListLt a b = true →
    charListLt b c = true → charListLt a c = true := by
  intro a
  induction a with
  | nil =>
    intro b c hab hbc
    cases b with
    | nil => simp [charListLt] at hab
    | cons x xs =>
      cases c with
      | nil => simp [charListLt] at hbc
      | cons y ys => simp [charListLt]
  | cons p ps ih =>
    intro b c hab hbc
    cases b with
    | nil => simp [charListLt] at hab
    | cons x xs =>
      cases c with
      | nil => simp [charListLt] at hbc
      | cons y ys =>
        rw [charListLt_cons] at hab hbc ⊢
        by_cases h1 : p.toNat < x.toNat
        · by_cases h2 : x.toNat < y.toNat
          · rw [if_pos (by omega)]
          · rw [if_neg h2] at hbc
            by_cases h3 : y.toNat < x.toNat
            · rw [if_pos h3] at hbc; exact absurd hbc (by simp)
            · rw [if_pos (by omega)]
        · rw [if_neg h1] at hab
          by_cases h1' : x.toNat < p.toNat
          · rw [if_pos h1'] at hab; exact absurd hab (by simp)
          · rw [if_neg h1'] at hab
            by_cases h2 : x.toNat < y.toNat
            · rw [if_pos (by omega)]
            · rw [if_neg h2] at hbc
              by_cases h3 : y.toNat < x.toNat
              · rw [if_pos h3] at hbc; exact absurd hbc (by simp)
              · rw [if_neg h3] at hbc
                rw [if_neg (by omega), if_neg (by omega)]
                exact ih xs ys hab hbc

theorem charListLt_conn : ∀ (a b : List Char), charListLt a b = false →
    charListLt b a = false → a = b := by
  intro a
  induction a with
  | nil =>
    intro b hab _
    cases b with
    | nil => rfl
    | cons x xs => simp [charListLt] at hab
  | cons p ps ih =>
    intro b hab hba
    cases b with
    | nil => simp [charListLt] at hba
    | cons x xs =>
      rw [charListLt_cons] at hab hba
      by_cases h1 : p.toNat < x.toNat
      · rw [if_pos h1] at hab; exact absurd hab (by simp)
      · by_cases h2 : x.toNat < p.toNat
        · rw [if_pos h2] at hba; exact absurd hba (by simp)
        · rw [if_neg h1, if_neg h2] at hab
          rw [if_neg h2, if_neg h1] at hba
          have h3 : p.toNat = x.toNat := by omega
          have hpx : p = x := Char.eq_of_val_eq (UInt32.toNat.inj h3)
          rw [hpx, ih xs hab hba]

theorem charListLt_irrefl (a : List Char) : charListLt a a = false := by
  induction a with
  | nil => rfl
  | cons p ps ih =>
    rw [charListLt_cons, if_neg (Nat.lt_irrefl _), if_neg (Nat.lt_irrefl _)]
    exact ih

/-! ### Decimal rendering and chronology of ISO strings -/

theorem natToCharsAux_succ (fuel n : Nat) (acc : List Char) :
    natToCharsAux (fuel + 1) n acc =
      (if n < 10 then digitCh (n % 10) :: acc
       else natToCharsAux fuel (n / 10) (digitCh (n % 10) :: acc)) := rfl

theorem natToChars_four (y : Nat) (h1 : 1000 ≤ y) (h2 : y ≤ 9999) :
    natToChars y = [digitCh (y / 1000), digitCh (y / 100 % 10), digitCh (y / 10 % 10),
      digitCh (y % 10)] := by
  rw [natToChars, show (10 : Nat) = 9 + 1 from rfl, natToCharsAux_succ, if_neg (by omega),
    show (9 : Nat) = 8 + 1 from rfl, natToCharsAux_succ, if_neg (by omega),
    show (8 : Nat) = 7 + 1 from rfl, natToCharsAux_succ, if_neg (by omega),
    show (7 : Nat) = 6 + 1 from rfl, natToCharsAux_succ, if_pos (by omega)]
  have a1 : y / 10 / 10 / 10 % 10 = y / 1000 := by omega
  have a2 : y / 10 / 10 % 10 = y / 100 % 10 := by omega
  rw [a1, a2]

theorem digit_lt : ∀ a : Nat, a < 10 → ∀ b : Nat, b < 10 →
    ((digitCh a).toNat < (digitCh b).toNat ↔ a < b) := by decide

theorem natToChars_lt (y₁ y₂ : Nat) (ha1 : 1000 ≤ y₁) (ha2 : y₁ ≤ 9999)
    (hb1 : 1000 ≤ y₂) (hb2 : y₂ ≤ 9999) (h : y₁ < y₂) :
    charListLt (natToChars y₁) (natToChars y₂) = true := by
  rw [natToChars_four y₁ ha1 ha2, natToChars_four y₂ hb1 hb2]
  by_cases c1 : y₁ / 1000 < y₂ / 1000
  · rw [charListLt_cons,
      if_pos ((digit_lt _ (by omega) _ (by omega)).mpr c1)]
  · have e1 : y₁ / 1000 = y₂ / 1000 := by omega
    rw [charListLt_cons, e1, if_neg (Nat.lt_irrefl _), if_neg (Nat.lt_irrefl _)]
    by_cases c2 : y₁ / 100 % 10 < y₂ / 100 % 10
    · rw [charListLt_cons,
        if_pos ((digit_lt _ (by omega) _ (by omega)).mpr c2)]
    · have e2 : y₁ / 100 % 10 = y₂ / 100 % 10 := by omega
      rw [charListLt_cons, e2, if_neg (Nat.lt_irrefl _), if_neg (Nat.lt_irrefl _)]
      by_cases c3 : y₁ / 10 % 10 < y₂ / 10 % 10
      · rw [charListLt_cons,
          if_pos ((digit_lt _ (by omega) _ (by omega)).mpr c3)]
      · have e3 : y₁ / 10 % 10 = y₂ / 10 % 10 := by omega
        rw [charListLt_cons, e3, if_neg (Nat.lt_irrefl _), if_neg (Nat.lt_irrefl _)]
        have c4 : y₁ % 10 < y₂ % 10 := by omega
        rw [charListLt_cons,
          if_pos ((digit_lt _ (by omega) _ (by omega)).mpr c4)]

theorem pad2_lt : ∀ a : Nat, a < 32 → ∀ b : Nat, b < 32 → a < b →
    charListLt (pad2 (a : Int)) (pad2 (b : Int)) = true := by decide

theorem pad2_len : ∀ a : Nat, a < 32 → (pad2 (a : Int)).length = 2 := by decide

theorem formatDateString_lt (y₁ m₁ d₁ y₂ m₂ d₂ : Int)
    (hy₁ : 1000 ≤ y₁) (hy₁' : y₁ ≤ 9999) (hy₂ : 1000 ≤ y₂) (hy₂' : y₂ ≤ 9999)
    (hm₁ : 0 ≤ m₁) (hm₁' : m₁ ≤ 11) (hm₂ : 0 ≤ m₂) (hm₂' : m₂ ≤ 11)
    (hd₁ : 1 ≤ d₁) (hd₁' : d₁ ≤ 31) (hd₂ : 1 ≤ d₂) (hd₂' : d₂ ≤ 31)
    (hlt : y₁ < y₂ ∨ (y₁ = y₂ ∧ (m₁ < m₂ ∨ (m₁ = m₂ ∧ d₁ < d₂)))) :
    strLt (formatDateString (some (y₁, m₁, d₁)))
      (formatDateString (some (y₂, m₂, d₂))) = true := by
  show charListLt (intToChars y₁ ++ '-' :: (pad2 (m₁ + 1) ++ '-' :: pad2 d₁))
    (intToChars y₂ ++ '-' :: (pad2 (m₂ + 1) ++ '-' :: pad2 d₂)) = true
  rw [intToChars, if_neg (by omega), intToChars, if_neg (by omega)]
  have hme₁ : m₁ + 1 = ((m₁ + 1).toNat : Int) := by omega
  have hme₂ : m₂ + 1 = ((m₂ + 1).toNat : Int) := by omega
  have hde₁ : d₁ = (d₁.toNat : Int) := by omega
  have hde₂ : d₂ = (d₂.toNat : Int) := by omega
  rcases hlt with hy | ⟨hyEq, hmd⟩
  · refine charListLt_append_len _ _ _ _ ?_ ?_
    · rw [natToChars_four y₁.toNat (by omega) (by omega),
        natToChars_four y₂.toNat (by omega) (by omega)]
      rfl
    · exact natToChars_lt y₁.toNat y₂.toNat (by omega) (by omega) (by omega) (by omega)
        (by omega)
  · rw [hyEq]
    refine charListLt_append_same _ _ _ ?_
    rw [charListLt_cons, if_neg (Nat.lt_irrefl _), if_neg (Nat.lt_irrefl _)]
    rcases hmd with hm | ⟨hmEq, hd⟩
    · refine charListLt_append_len _ _ _ _ ?_ ?_
      · rw [hme₁, hme₂, pad2_len (m₁ + 1).toNat (by omega), pad2_len (m₂ + 1).toNat (by omega)]
      · rw [hme₁, hme₂]
        exact pad2_lt (m₁ + 1).toNat (by omega) (m₂ + 1).toNat (by omega) (by omega)
    · rw [hmEq]
      refine charListLt_append_same _ _ _ ?_
      rw [charListLt_cons, if_neg (Nat.lt_irrefl _), if_neg (Nat.lt_irrefl _)]
      rw [hde₁, hde₂]
      exact pad2_lt d₁.toNat (by omega) d₂.toNat (by omega) (by omega)

/-! ### Structural facts about parsing -/

theorem isDigitChar_iff (c : Char) :
    isDigitChar c = true ↔ 48 ≤ c.toNat ∧ c.toNat ≤ 57 := by
  simp [isDigitChar]

theorem takeDigits_digits : ∀ cs : List Char, ∀ c ∈ (takeDigits cs).1, isDigitChar c = true := by
  intro cs
  induction cs with
  | nil => intro c hc; simp [takeDigits] at hc
  | cons a as ih =>
    intro c hc
    rw [takeDigits] at hc
    by_cases h : isDigitChar a
    · rw [if_pos h] at hc
      rcases List.mem_cons.mp hc with h1 | h1
      · rwa [h1]
      · exact ih c h1
    · rw [if_neg h] at hc
      simp at hc

theorem digitsVal_le_two : ∀ cs : List Char, (∀ c ∈ cs, isDigitChar c = true) →
    cs.length ≤ 2 → digitsVal cs ≤ 99 := by
  intro cs hdig hlen
  match cs, hlen with
  | [], _ => simp [digitsVal]
  | [a], _ =>
    have ha := (isDigitChar_iff a).mp (hdig a (by simp))
    simp only [digitsVal, List.foldl]
    omega
  | [a, b], _ =>
    have ha := (isDigitChar_iff a).mp (hdig a (by simp))
    have hb := (isDigitChar_iff b).mp (hdig b (by simp))
    simp only [digitsVal, List.foldl]
    omega

theorem digitsVal_two_digits (a b : Char) (ha : isDigitChar a = true)
    (hb : isDigitChar b = true) : digitsVal [a, b] ≤ 99 := by
  refine digitsVal_le_two [a, b] ?_ (by simp)
  intro c hc
  rcases List.mem_cons.mp hc with h | h
  · rwa [h]
  · simp only [List.mem_singleton] at h
    rwa [h]

theorem parseIso_day (value : List Char) (y m d : Int)
    (h : parseIso value = some (y, m, d)) : 0 ≤ d ∧ d ≤ 99 := by
  unfold parseIso at h
  split at h
  · rename_i y1 y2 y3 y4 m1 m2 d1 d2
    split at h
    · rename_i hcond
      simp only [Bool.and_eq_true] at hcond
      injection h with h'
      have hd : d = (digitsVal [d1, d2] : Int) := by
        have := congrArg (fun t : Int × Int × Int => t.2.2) h'
        simpa using this.symm
      have hval := digitsVal_two_digits d1 d2 hcond.1.2 hcond.2
      subst hd
      omega
    · exact absurd h (by simp)
  · exact absurd h (by simp)

theorem parseDMY_bounds (cs : List Char) (dd mm yy : Int)
    (h : parseDMY cs = some (dd, mm, yy)) : (0 ≤ dd ∧ dd ≤ 99) ∧ 0 ≤ mm := by
  unfold parseDMY at h
  split at h
  · exact absurd h (by simp)
  · split at h
    · exact absurd h (by simp)
    · rename_i s1 r2 heq1
      split at h
      · split at h
        · exact absurd h (by simp)
        · split at h
          · exact absurd h (by simp)
          · rename_i s2 r4 heq2
            split at h
            · split at h
              · injection h with h'
                have hd : dd = (digitsVal (takeDigits cs).1 : Int) := by
                  have := congrArg (fun t : Int × Int × Int => t.1) h'
                  simpa using this.symm
                have hdv : digitsVal (takeDigits cs).1 ≤ 99 := by
                  apply digitsVal_le_two _ (takeDigits_digits cs)
                  omega
                have hm : mm = (digitsVal (takeDigits r2).1 : Int) := by
                  have := congrArg (fun t : Int × Int × Int => t.2.1) h'
                  simpa using this.symm
                constructor
                · subst hd; omega
                · subst hm; omega
              · exact absurd h (by simp)
            · exact absurd h (by simp)
      · exact absurd h (by simp)

theorem parseDateFields_day (value : List Char) (y m d : Int)
    (h : parseDateFields value = some (y, m, d)) : 0 ≤ d ∧ d ≤ 99 := by
  unfold parseDateFields at h
  split at h
  · rename_i f hiso
    injection h with h'
    subst h'
    exact parseIso_day value y m d hiso
  · split at h
    · rename_i dd mm yy hdmy
      injection h with h'
      have hd : d = dd := by
        have := congrArg (fun t : Int × Int × Int => t.2.2) h'
        simpa using this.symm
      subst hd
      exact (parseDMY_bounds value d mm yy hdmy).1
    · exact absurd h (by simp)

theorem parseDateString_some (s : String) (t : DateTriple)
    (h : parseDateString s = some t) :
    ∃ y m d : Int, parseDateFields (trimChars s.data) = some (y, m, d) ∧
      t = mkJSDate y (m - 1) d ∧ t = (y, m - 1, d) := by
  unfold parseDateString at h
  split at h
  · exact absurd h (by simp)
  · split at h
    · exact absurd h (by simp)
    · split at h
      · exact absurd h (by simp)
      · rename_i year month day hfields
        split at h
        · rename_i hcheck
          injection h with h'
          obtain ⟨h1, h2, h3⟩ := hcheck
          refine ⟨year, month, day, hfields, h'.symm, ?_⟩
          rw [← h']
          rw [Prod.ext_iff]
          refine ⟨h1, ?_⟩
          rw [Prod.ext_iff]
          exact ⟨h2, h3⟩
        · exact absurd h (by simp)

theorem parse_canonical (s : String) (t : DateTriple)
    (h : parseDateString s = some t) : isCanon t := by
  obtain ⟨y, m, d, hfields, ht, _⟩ := parseDateString_some s t h
  have hd := parseDateFields_day _ y m d hfields
  rw [ht]
  exact mkJSDate_canonical y (m - 1) d hd.1 (by omega)

/-! ### Insertion into a sorted settled-date list -/

theorem mem_insertOccurrence (s x : String) : ∀ l, x ∈ insertOccurrence s l ↔ x = s ∨ x ∈ l := by
  intro l
  induction l with
  | nil => simp [insertOccurrence]
  | cons t ts ih =>
    rw [insertOccurrence]
    by_cases h : strLt t s
    · rw [if_pos h]
      simp only [List.mem_cons, ih]
      tauto
    · rw [if_neg h]
      simp only [List.mem_cons]

theorem mem_sortOccurrences (x : String) : ∀ l, x ∈ sortOccurrences l ↔ x ∈ l := by
  intro l
  induction l with
  | nil => simp [sortOccurrences]
  | cons a as ih =>
    show x ∈ insertOccurrence a (sortOccurrences as) ↔ _
    rw [mem_insertOccurrence, ih]
    simp

theorem strLt_of_not_of_ne (s t : String) (h : strLt t s = false) (hne : s ≠ t) :
    strLt s t = true := by
  by_cases h2 : strLt s t = true
  · exact h2
  · have h2' : strLt s t = false := by
      cases hh : strLt s t
      · rfl
      · exact absurd hh h2
    have hdata : s.toList = t.toList := charListLt_conn s.data t.data h2' h
    exact absurd (String.toList_inj.mp hdata) hne

theorem insertOccurrence_pairwise (s : String) :
    ∀ l, List.Pairwise (fun a b => strLt a b = true) l → s ∉ l →
      List.Pairwise (fun a b => strLt a b = true) (insertOccurrence s l) := by
  intro l
  induction l with
  | nil => intro _ _; simp [insertOccurrence]
  | cons t ts ih =>
    intro hp hs
    rw [List.pairwise_cons] at hp
    rw [insertOccurrence]
    by_cases h : strLt t s
    · rw [if_pos h]
      rw [List.pairwise_cons]
      constructor
      · intro x hx
        rcases (mem_insertOccurrence s x ts).mp hx with h1 | h1
        · rwa [h1]
        · exact hp.1 x h1
      · exact ih hp.2 (fun hmem => hs (List.mem_cons_of_mem t hmem))
    · rw [if_neg h]
      have hne : s ≠ t := fun he => hs (by rw [he]; exact List.mem_cons_self t ts)
      have hst : strLt s t = true := strLt_of_not_of_ne s t (by simpa using h) hne
      rw [List.pairwise_cons]
      constructor
      · intro x hx
        rcases List.mem_cons.mp hx with h1 | h1
        · rwa [h1]
        · exact charListLt_trans s.data t.data x.data hst (hp.1 x h1)
      · rw [List.pairwise_cons]
        exact ⟨hp.1, hp.2⟩

theorem sortOccurrences_pairwise :
    ∀ l : List String, l.Nodup → List.Pairwise (fun a b => strLt a b = true) (sortOccurrences l) := by
  intro l
  induction l with
  | nil => intro _; simp [sortOccurrences]
  | cons a as ih =>
    intro hnd
    rw [List.nodup_cons] at hnd
    show List.Pairwise _ (insertOccurrence a (sortOccurrences as))
    exact insertOccurrence_pairwise a (sortOccurrences as) (ih hnd.2)
      (fun hmem => hnd.1 ((mem_sortOccurrences a as).mp hmem))

/-! ### Exact rounding of two-decimal amounts -/

theorem roundCurrency_twoDec (q : ℚ) (n : Int) (h : q = (n : ℚ) / 100) :
    roundCurrency q = q := by
  subst h
  unfold roundCurrency
  have h1 : (n : ℚ) / 100 * 100 = (n : ℚ) := by field_simp
  rw [h1]
  have h2 : ⌊(n : ℚ) + 1 / 2⌋ = n := by
    rw [Int.floor_int_add]
    have : ⌊(1 / 2 : ℚ)⌋ = 0 := by
      rw [Int.floor_eq_zero_iff]
      constructor <;> norm_num
    rw [this, add_zero]
  rw [h2]

/-! ### Characterization of the occurrence calculators -/

theorem monthStartOf_eval (y m d0 : Int) (hy : 100 ≤ y) (hm0 : 0 ≤ m) (hm1 : m ≤ 11) :
    normalizeDate (monthStartOf (some (y, m, d0))) = some (y, m, 1) := by
  show some (mkJSDate y m 1) = some (y, m, 1)
  rw [mkJSDate_eval y m 1 hy hm0 hm1 (by omega) (by have := daysInMonth_bounds y m; omega)]

theorem getMonthOccurrenceDate_eval (yb mb db y m : Int) (hy : 100 ≤ y) (hm0 : 0 ≤ m)
    (hm1 : m ≤ 11) (hd1 : 1 ≤ db) (hd2 : db ≤ 31) :
    getMonthOccurrenceDate (some (yb, mb, db)) y m =
      some (y, m, min db (daysInMonth y m)) := by
  have hb := daysInMonth_bounds y m
  show some (mkJSDate y m (min db ((mkJSDate y (m + 1) 0).2.2))) = _
  rw [mkJSDate_lastday y m hy hm0 hm1]
  show some (mkJSDate y m (min db (daysInMonth y m))) = _
  rw [mkJSDate_eval y m _ hy hm0 hm1 (by omega) (by omega)]

theorem getPaymentOccurrenceForMonth_monthly (p : Payment) (yb mb db y m d0 : Int)
    (hf : p.frequency = "monthly") (hparse : parseDateString p.date = some (yb, mb, db))
    (hy : 100 ≤ y) (hm0 : 0 ≤ m) (hm1 : m ≤ 11) :
    getPaymentOccurrenceForMonth p (some (y, m, d0)) =
      (if tripleLe (yb, mb, db) (y, m, min db (daysInMonth y m)) then
        some (formatDateString (some (y, m, min db (daysInMonth y m)))) else none) := by
  have hcanon := parse_canonical _ _ hparse
  obtain ⟨hc1, hc2, hc3, hc4⟩ := hcanon
  simp only at hc1 hc2 hc3 hc4
  have hb := daysInMonth_bounds yb mb
  unfold getPaymentOccurrenceForMonth
  rw [hparse, monthStartOf_eval y m d0 (by omega) hm0 hm1, hf]
  rw [if_neg (by decide), if_pos rfl]
  show (if jsDateGE (getMonthOccurrenceDate (some (yb, mb, db)) y m) (some (yb, mb, db)) = true
    then some (formatDateString (getMonthOccurrenceDate (some (yb, mb, db)) y m)) else none) = _
  rw [getMonthOccurrenceDate_eval yb mb db y m (by omega) hm0 hm1 (by omega) (by omega)]
  rfl

theorem getIncomeOccurrenceForMonth_monthly (inc : Income) (yb mb db y m d0 : Int)
    (hf : inc.frequency = "monthly") (hparse : parseDateString inc.date = some (yb, mb, db))
    (hy : 100 ≤ y) (hm0 : 0 ≤ m) (hm1 : m ≤ 11) :
    getIncomeOccurrenceForMonth inc (some (y, m, d0)) =
      (if tripleLe (yb, mb, db) (y, m, min db (daysInMonth y m)) then
        some (formatDateString (some (y, m, min db (daysInMonth y m)))) else none) := by
  have hcanon := parse_canonical _ _ hparse
  obtain ⟨hc1, hc2, hc3, hc4⟩ := hcanon
  simp only at hc1 hc2 hc3 hc4
  have hb := daysInMonth_bounds yb mb
  unfold getIncomeOccurrenceForMonth
  rw [hparse, monthStartOf_eval y m d0 (by omega) hm0 hm1, hf]
  rw [if_neg (by decide), if_pos rfl]
  show (if jsDateGE (getMonthOccurrenceDate (some (yb, mb, db)) y m) (some (yb, mb, db)) = true
    then some (formatDateString (getMonthOccurrenceDate (some (yb, mb, db)) y m)) else none) = _
  rw [getMonthOccurrenceDate_eval yb mb db y m (by omega) hm0 hm1 (by omega) (by omega)]
  rfl

theorem getPaymentOccurrenceForMonth_selected_mem (p : Payment) (y m d0 : Int) (o : String)
    (hf : p.frequency = "selected") (hy : 100 ≤ y) (hm0 : 0 ≤ m) (hm1 : m ≤ 11)
    (h : getPaymentOccurrenceForMonth p (some (y, m, d0)) = some o) :
    ∃ l, p.months = some l ∧ (m + 1) ∈ l := by
  unfold getPaymentOccurrenceForMonth at h
  rw [monthStartOf_eval y m d0 hy hm0 hm1, hf, if_neg (by decide), if_neg (by decide),
    if_pos rfl] at h
  cases hms : p.months with
  | none => rw [hms] at h; exact absurd h (by simp)
  | some l =>
    rw [hms] at h
    change (if l.contains (m + 1) = true then
      (if jsDateGE (getMonthOccurrenceDate (parseDateString p.date) y m)
          (parseDateString p.date) = true then
        some (formatDateString (getMonthOccurrenceDate (parseDateString p.date) y m))
      else none) else none) = some o at h
    cases hc : l.contains (m + 1) with
    | false => rw [hc] at h; simp at h
    | true => exact ⟨l, rfl, List.elem_iff.mp hc⟩

theorem paymentOcc_invalid_anchor (p : Payment) (monthDate : JSDate)
    (hparse : parseDateString p.date = none) :
    getPaymentOccurrenceForMonth p monthDate = none := by
  unfold getPaymentOccurrenceForMonth
  rw [hparse]
  cases hms : p.months with
  | none =>
    cases monthDate with
    | none => simp [monthStartOf, normalizeDate, isSameMonthAndYear, getMonthOccurrenceDate,
        jsDateGE]
    | some t => simp [monthStartOf, normalizeDate, isSameMonthAndYear, getMonthOccurrenceDate,
        jsDateGE]
  | some l =>
    cases monthDate with
    | none => simp [monthStartOf, normalizeDate, isSameMonthAndYear, getMonthOccurrenceDate,
        jsDateGE]
    | some t => simp [monthStartOf, normalizeDate, isSameMonthAndYear, getMonthOccurrenceDate,
        jsDateGE]

theorem incomeOcc_invalid_anchor (inc : Income) (monthDate : JSDate)
    (hparse : parseDateString inc.date = none) :
    getIncomeOccurrenceForMonth inc monthDate = none := by
  unfold getIncomeOccurrenceForMonth
  rw [hparse]
  cases monthDate with
  | none => simp [monthStartOf, normalizeDate, isSameMonthAndYear, getMonthOccurrenceDate,
      jsDateGE]
  | some t => simp [monthStartOf, normalizeDate, isSameMonthAndYear, getMonthOccurrenceDate,
      jsDateGE]

theorem getPaymentOccurrenceForMonth_selected_char (p : Payment) (l : List Int)
    (yb mb db y m d0 : Int) (hf : p.frequency = "selected") (hfm : p.months = some l)
    (hparse : parseDateString p.date = some (yb, mb, db)) (hy : 100 ≤ y) (hm0 : 0 ≤ m)
    (hm1 : m ≤ 11) (hmem : (m + 1) ∈ l) :
    getPaymentOccurrenceForMonth p (some (y, m, d0)) =
      (if tripleLe (yb, mb, db) (y, m, min db (daysInMonth y m)) then
        some (formatDateString (some (y, m, min db (daysInMonth y m)))) else none) := by
  have hcanon := parse_canonical _ _ hparse
  obtain ⟨hc1, hc2, hc3, hc4⟩ := hcanon
  simp only at hc1 hc2 hc3 hc4
  have hb := daysInMonth_bounds yb mb
  have hcont : l.contains (m + 1) = true := List.elem_iff.mpr hmem
  unfold getPaymentOccurrenceForMonth
  rw [hparse, monthStartOf_eval y m d0 hy hm0 hm1, hf]
  rw [if_neg (by decide), if_neg (by decide), if_pos rfl, hfm]
  change (if l.contains (m + 1) = true then
    (if jsDateGE (getMonthOccurrenceDate (some (yb, mb, db)) y m)
        (some (yb, mb, db)) = true then
      some (formatDateString (getMonthOccurrenceDate (some (yb, mb, db)) y m))
    else none) else none) = _
  rw [hcont, if_pos rfl]
  rw [getMonthOccurrenceDate_eval yb mb db y m (by omega) hm0 hm1 (by omega) (by omega)]
  rfl

theorem getPaymentOccurrenceForMonth_selected_on (p : Payment) (l : List Int) (y m d0 : Int)
    (hf : p.frequency = "selected") (hfm : p.months = some l) (hy : 100 ≤ y) (hm0 : 0 ≤ m)
    (hm1 : m ≤ 11) (hmem : (m + 1) ∈ l) :
    getPaymentOccurrenceForMonth p (some (y, m, d0)) =
      getPaymentOccurrenceForMonth { p with frequency := "monthly" } (some (y, m, d0)) := by
  cases hparse : parseDateString p.date with
  | none =>
    rw [paymentOcc_invalid_anchor p _ hparse,
      paymentOcc_invalid_anchor { p with frequency := "monthly" } _ hparse]
  | some t =>
    obtain ⟨yb, mb, db⟩ := t
    rw [getPaymentOccurrenceForMonth_selected_char p l yb mb db y m d0 hf hfm hparse hy hm0
      hm1 hmem]
    rw [getPaymentOccurrenceForMonth_monthly { p with frequency := "monthly" } yb mb db y m d0
      rfl hparse hy hm0 hm1]

theorem paymentOcc_unknown_freq (p : Payment) (monthDate : JSDate)
    (h1 : p.frequency ≠ "once") (h2 : p.frequency ≠ "monthly")
    (h3 : p.frequency ≠ "selected") :
    getPaymentOccurrenceForMonth p monthDate = none := by
  unfold getPaymentOccurrenceForMonth
  rw [if_neg h1, if_neg h2, if_neg h3]

theorem incomeOcc_unknown_freq (inc : Income) (monthDate : JSDate)
    (h1 : inc.frequency ≠ "once") (h2 : inc.frequency ≠ "monthly") :
    getIncomeOccurrenceForMonth inc monthDate = none := by
  unfold getIncomeOccurrenceForMonth
  rw [if_neg h1, if_neg h2]

theorem paymentOcc_selected_no_months (p : Payment) (monthDate : JSDate)
    (hf : p.frequency = "selected") (hm : p.months = none) :
    getPaymentOccurrenceForMonth p monthDate = none := by
  unfold getPaymentOccurrenceForMonth
  rw [hf, if_neg (by decide), if_neg (by decide), if_pos rfl, hm]
  cases monthDate with
  | none => rfl
  | some t => rfl

theorem getPaymentOccurrenceForMonth_shape (p : Payment) (y m d0 : Int) (o : String)
    (hy : 100 ≤ y) (hm0 : 0 ≤ m) (hm1 : m ≤ 11)
    (h : getPaymentOccurrenceForMonth p (some (y, m, d0)) = some o) :
    ∃ dd : Int, 1 ≤ dd ∧ dd ≤ 31 ∧ o = formatDateString (some (y, m, dd)) := by
  cases hparse : parseDateString p.date with
  | none => rw [paymentOcc_invalid_anchor p _ hparse] at h; exact absurd h (by simp)
  | some t =>
    obtain ⟨yb, mb, db⟩ := t
    have hcanon := parse_canonical _ _ hparse
    obtain ⟨hc1, hc2, hc3, hc4⟩ := hcanon
    simp only at hc1 hc2 hc3 hc4
    have hbb := daysInMonth_bounds yb mb
    have hbt := daysInMonth_bounds y m
    by_cases h1 : p.frequency = "once"
    · unfold getPaymentOccurrenceForMonth at h
      rw [hparse, monthStartOf_eval y m d0 hy hm0 hm1, h1, if_pos rfl] at h
      cases hsame : isSameMonthAndYear (some (yb, mb, db)) (some (y, m, 1)) with
      | false => rw [hsame] at h; simp at h
      | true =>
        have hsame' : mb = m ∧ yb = y := by
          have hd : decide (mb = m ∧ yb = y) = true := hsame
          exact of_decide_eq_true hd
        rw [hsame, if_pos rfl] at h
        injection h with h'
        exact ⟨db, hc3, by omega, by rw [← h', hsame'.1, hsame'.2]⟩
    · by_cases h2 : p.frequency = "monthly"
      · rw [getPaymentOccurrenceForMonth_monthly p yb mb db y m d0 h2 hparse hy hm0 hm1] at h
        split at h
        · injection h with h'
          exact ⟨min db (daysInMonth y m), by omega, by omega, h'.symm⟩
        · exact absurd h (by simp)
      · by_cases h3 : p.frequency = "selected"
        · cases hms : p.months with
          | none =>
            rw [paymentOcc_selected_no_months p _ h3 hms] at h
            exact absurd h (by simp)
          | some l =>
            by_cases hmem : (m + 1) ∈ l
            · rw [getPaymentOccurrenceForMonth_selected_char p l yb mb db y m d0 h3 hms hparse
                hy hm0 hm1 hmem] at h
              split at h
              · injection h with h'
                exact ⟨min db (daysInMonth y m), by omega, by omega, h'.symm⟩
              · exact absurd h (by simp)
            · have hcont : l.contains (m + 1) = false := by
                cases hcc : l.contains (m + 1)
                · rfl
                · exact absurd (List.elem_iff.mp hcc) hmem
              unfold getPaymentOccurrenceForMonth at h
              rw [hparse, monthStartOf_eval y m d0 hy hm0 hm1, h3, if_neg (by decide),
                if_neg (by decide), if_pos rfl, hms] at h
              change (if l.contains (m + 1) = true then _ else none) = some o at h
              rw [hcont] at h
              simp at h
        · rw [paymentOcc_unknown_freq p _ h1 h2 h3] at h
          exact absurd h (by simp)

theorem getIncomeOccurrenceForMonth_shape (inc : Income) (y m d0 : Int) (o : String)
    (hy : 100 ≤ y) (hm0 : 0 ≤ m) (hm1 : m ≤ 11)
    (h : getIncomeOccurrenceForMonth inc (some (y, m, d0)) = some o) :
    ∃ dd : Int, 1 ≤ dd ∧ dd ≤ 31 ∧ o = formatDateString (some (y, m, dd)) := by
  cases hparse : parseDateString inc.date with
  | none => rw [incomeOcc_invalid_anchor inc _ hparse] at h; exact absurd h (by simp)
  | some t =>
    obtain ⟨yb, mb, db⟩ := t
    have hcanon := parse_canonical _ _ hparse
    obtain ⟨hc1, hc2, hc3, hc4⟩ := hcanon
    simp only at hc1 hc2 hc3 hc4
    have hbb := daysInMonth_bounds yb mb
    have hbt := daysInMonth_bounds y m
    by_cases h1 : inc.frequency = "once"
    · unfold getIncomeOccurrenceForMonth at h
      rw [hparse, monthStartOf_eval y m d0 hy hm0 hm1, h1, if_pos rfl] at h
      cases hsame : isSameMonthAndYear (some (yb, mb, db)) (some (y, m, 1)) with
      | false => rw [hsame] at h; simp at h
      | true =>
        have hsame' : mb = m ∧ yb = y := by
          have hd : decide (mb = m ∧ yb = y) = true := hsame
          exact of_decide_eq_true hd
        rw [hsame, if_pos rfl] at h
        injection h with h'
        exact ⟨db, hc3, by omega, by rw [← h', hsame'.1, hsame'.2]⟩
    · by_cases h2 : inc.frequency = "monthly"
      · rw [getIncomeOccurrenceForMonth_monthly inc yb mb db y m d0 h2 hparse hy hm0 hm1] at h
        split at h
        · injection h with h'
          exact ⟨min db (daysInMonth y m), by omega, by omega, h'.symm⟩
        · exact absurd h (by simp)
      · rw [incomeOcc_unknown_freq inc _ h1 h2] at h
        exact absurd h (by simp)

/-! ### Specification of the due-occurrence month scan -/

theorem dueScanStep_none (settled : String → Bool) (todayString : String)
    (includeToday : Bool) (rest : List String) :
    dueScanStep none settled todayString includeToday rest = rest := rfl

theorem dueScanStep_some (occurrence : String) (settled : String → Bool)
    (todayString : String) (includeToday : Bool) (rest : List String) :
    dueScanStep (some occurrence) settled todayString includeToday rest =
      (if settled occurrence then rest
       else if strLt occurrence todayString || (includeToday && occurrence == todayString) then
         occurrence :: rest
       else rest) := rfl

theorem dueScanLoop_succ (occFn : DateTriple → Option String) (settled : String → Bool)
    (todayString : String) (includeToday : Bool) (targetMonth : DateTriple) (fuel : Nat)
    (probeMonth : DateTriple) :
    dueScanLoop occFn settled todayString includeToday targetMonth (fuel + 1) probeMonth =
      (if tripleLe probeMonth targetMonth then
        dueScanStep (occFn probeMonth) settled todayString includeToday
          (dueScanLoop occFn settled todayString includeToday targetMonth fuel
            (mkJSDate probeMonth.1 (probeMonth.2.1 + 1) 1))
      else []) := rfl

theorem tripleLe_day1 (y m ty tm : Int) (hm0 : 0 ≤ m) (hm1 : m ≤ 11) (htm0 : 0 ≤ tm)
    (htm1 : tm ≤ 11) :
    tripleLe (y, m, 1) (ty, tm, 1) = true ↔ y * 12 + m ≤ ty * 12 + tm := by
  constructor
  · intro h
    have h' : y < ty ∨ (y = ty ∧ (m < tm ∨ (m = tm ∧ (1 : Int) ≤ 1))) := of_decide_eq_true h
    omega
  · intro h
    exact decide_eq_true
      (show y < ty ∨ (y = ty ∧ (m < tm ∨ (m = tm ∧ (1 : Int) ≤ 1))) by omega)

theorem dueScanLoop_spec (occFn : DateTriple → Option String) (settled : String → Bool)
    (todayString : String) (includeToday : Bool) (ty tm : Int)
    (hty9 : ty ≤ 9999) (htm0 : 0 ≤ tm) (htm1 : tm ≤ 11)
    (hocc : ∀ y m : Int, ∀ o : String, 1000 ≤ y → y ≤ 9999 → 0 ≤ m → m ≤ 11 →
      occFn (y, m, 1) = some o →
      ∃ dd : Int, 1 ≤ dd ∧ dd ≤ 31 ∧ o = formatDateString (some (y, m, dd))) :
    ∀ (fuel : Nat) (y m : Int), 0 ≤ m → m ≤ 11 → 1000 ≤ y →
      ty * 12 + tm - (y * 12 + m) < (fuel : Int) →
      (∀ o : String,
        o ∈ dueScanLoop occFn settled todayString includeToday (ty, tm, 1) fuel (y, m, 1) ↔
        (∃ y' m' : Int, 0 ≤ m' ∧ m' ≤ 11 ∧ y * 12 + m ≤ y' * 12 + m' ∧
          y' * 12 + m' ≤ ty * 12 + tm ∧ occFn (y', m', 1) = some o ∧ settled o = false ∧
          (strLt o todayString = true ∨ (includeToday = true ∧ o = todayString)))) ∧
      List.Pairwise (fun a b => strLt a b = true)
        (dueScanLoop occFn settled todayString includeToday (ty, tm, 1) fuel (y, m, 1)) := by
  intro fuel
  induction fuel with
  | zero =>
    intro y m hm0 hm1 hy hfuel
    constructor
    · intro o
      constructor
      · intro ho
        rw [show dueScanLoop occFn settled todayString includeToday (ty, tm, 1) 0 (y, m, 1)
          = [] from rfl] at ho
        exact absurd ho (List.not_mem_nil o)
      · rintro ⟨y', m', h1, h2, h3, h4, h5, h6, h7⟩
        exfalso
        omega
    · rw [show dueScanLoop occFn settled todayString includeToday (ty, tm, 1) 0 (y, m, 1)
        = [] from rfl]
      exact List.Pairwise.nil
  | succ fuel ih =>
    intro y m hm0 hm1 hy hfuel
    rw [dueScanLoop_succ]
    by_cases hguard : tripleLe ((y, m, 1) : DateTriple) (ty, tm, 1) = true
    · rw [if_pos hguard]
      have hle_t : y * 12 + m ≤ ty * 12 + tm :=
        (tripleLe_day1 y m ty tm hm0 hm1 htm0 htm1).mp hguard
      have hy9 : y ≤ 9999 := by omega
      have hstep : mkJSDate ((y, m, 1) : DateTriple).1 (((y, m, 1) : DateTriple).2.1 + 1) 1 =
          (if m = 11 then ((y + 1 : Int), (0 : Int), (1 : Int)) else (y, m + 1, 1)) := by
        show mkJSDate y (m + 1) 1 = _
        exact mkJSDate_monthStep y m (by omega) hm0 hm1
      rw [hstep]
      by_cases hm11 : m = 11
      case pos =>
        rw [if_pos hm11]
        have ihs := ih (y + 1) 0 (by omega) (by omega) (by omega) (by omega)
        cases hoccv : occFn ((y, m, 1) : DateTriple) with
        | none =>
          rw [dueScanStep_none]
          refine ⟨?_, ihs.2⟩
          intro o
          rw [ihs.1 o]
          constructor
          · rintro ⟨y', m', h1, h2, h3, h4, h5, h6, h7⟩
            exact ⟨y', m', h1, h2, by omega, h4, h5, h6, h7⟩
          · rintro ⟨y', m', h1, h2, h3, h4, h5, h6, h7⟩
            refine ⟨y', m', h1, h2, ?_, h4, h5, h6, h7⟩
            rcases eq_or_lt_of_le h3 with heq | hlt
            · exfalso
              have hcomp : y' = y ∧ m' = m := by omega
              rw [hcomp.1, hcomp.2, hoccv] at h5
              exact absurd h5 (by simp)
            · omega
        | some occ =>
          rw [dueScanStep_some]
          by_cases hset : settled occ = true
          · rw [if_pos hset]
            refine ⟨?_, ihs.2⟩
            intro o
            rw [ihs.1 o]
            constructor
            · rintro ⟨y', m', h1, h2, h3, h4, h5, h6, h7⟩
              exact ⟨y', m', h1, h2, by omega, h4, h5, h6, h7⟩
            · rintro ⟨y', m', h1, h2, h3, h4, h5, h6, h7⟩
              refine ⟨y', m', h1, h2, ?_, h4, h5, h6, h7⟩
              rcases eq_or_lt_of_le h3 with heq | hlt
              · exfalso
                have hcomp : y' = y ∧ m' = m := by omega
                rw [hcomp.1, hcomp.2, hoccv] at h5
                injection h5 with h5'
                rw [← h5'] at h6
                rw [h6] at hset
                exact absurd hset (by simp)
              · omega
          · rw [if_neg hset]
            have hsetf : settled occ = false := by
              cases hsv : settled occ
              · rfl
              · exact absurd hsv hset
            by_cases hdue : (strLt occ todayString ||
                (includeToday && occ == todayString)) = true
            · rw [if_pos hdue]
              constructor
              · intro o
                rw [List.mem_cons, ihs.1 o]
                constructor
                · rintro (rfl | ⟨y', m', h1, h2, h3, h4, h5, h6, h7⟩)
                  · refine ⟨y, m, hm0, hm1, by omega, by omega, hoccv, hsetf, ?_⟩
                    rcases Bool.or_eq_true_iff.mp hdue with hd | hd
                    · exact Or.inl hd
                    · right
                      rw [Bool.and_eq_true] at hd
                      exact ⟨hd.1, by simpa using hd.2⟩
                  · exact ⟨y', m', h1, h2, by omega, h4, h5, h6, h7⟩
                · rintro ⟨y', m', h1, h2, h3, h4, h5, h6, h7⟩
                  rcases eq_or_lt_of_le h3 with heq | hlt
                  · have hcomp : y' = y ∧ m' = m := by omega
                    rw [hcomp.1, hcomp.2, hoccv] at h5
                    injection h5 with h5'
                    exact Or.inl h5'.symm
                  · exact Or.inr ⟨y', m', h1, h2, by omega, h4, h5, h6, h7⟩
              · rw [List.pairwise_cons]
                refine ⟨?_, ihs.2⟩
                intro o' ho'
                obtain ⟨y', m', h1, h2, h3, h4, h5, h6, h7⟩ := (ihs.1 o').mp ho'
                obtain ⟨dd', hdd'1, hdd'2, ho'eq⟩ :=
                  hocc y' m' o' (by omega) (by omega) h1 h2 h5
                obtain ⟨dd, hdd1, hdd2, hoeq⟩ := hocc y m occ hy hy9 hm0 hm1 hoccv
                rw [hoeq, ho'eq]
                exact formatDateString_lt y m dd y' m' dd' (by omega) (by omega) (by omega)
                  (by omega) hm0 hm1 h1 h2 hdd1 hdd2 hdd'1 hdd'2 (by omega)
            · rw [if_neg hdue]
              refine ⟨?_, ihs.2⟩
              intro o
              rw [ihs.1 o]
              constructor
              · rintro ⟨y', m', h1, h2, h3, h4, h5, h6, h7⟩
                exact ⟨y', m', h1, h2, by omega, h4, h5, h6, h7⟩
              · rintro ⟨y', m', h1, h2, h3, h4, h5, h6, h7⟩
                refine ⟨y', m', h1, h2, ?_, h4, h5, h6, h7⟩
                rcases eq_or_lt_of_le h3 with heq | hlt
                · exfalso
                  have hcomp : y' = y ∧ m' = m := by omega
                  rw [hcomp.1, hcomp.2, hoccv] at h5
                  injection h5 with h5'
                  apply hdue
                  rw [Bool.or_eq_true_iff]
                  rcases h7 with hd | hd
                  · left
                    rw [h5']
                    exact hd
                  · right
                    rw [Bool.and_eq_true]
                    refine ⟨hd.1, ?_⟩
                    rw [h5']
                    exact beq_iff_eq.mpr hd.2
                · omega
      case neg =>
        rw [if_neg hm11]
        have ihs := ih y (m + 1) (by omega) (by omega) (by omega) (by omega)
        cases hoccv : occFn ((y, m, 1) : DateTriple) with
        | none =>
          rw [dueScanStep_none]
          refine ⟨?_, ihs.2⟩
          intro o
          rw [ihs.1 o]
          constructor
          · rintro ⟨y', m', h1, h2, h3, h4, h5, h6, h7⟩
            exact ⟨y', m', h1, h2, by omega, h4, h5, h6, h7⟩
          · rintro ⟨y', m', h1, h2, h3, h4, h5, h6, h7⟩
            refine ⟨y', m', h1, h2, ?_, h4, h5, h6, h7⟩
            rcases eq_or_lt_of_le h3 with heq | hlt
            · exfalso
              have hcomp : y' = y ∧ m' = m := by omega
              rw [hcomp.1, hcomp.2, hoccv] at h5
              exact absurd h5 (by simp)
            · omega
        | some occ =>
          rw [dueScanStep_some]
          by_cases hset : settled occ = true
          · rw [if_pos hset]
            refine ⟨?_, ihs.2⟩
            intro o
            rw [ihs.1 o]
            constructor
            · rintro ⟨y', m', h1, h2, h3, h4, h5, h6, h7⟩
              exact ⟨y', m', h1, h2, by omega, h4, h5, h6, h7⟩
            · rintro ⟨y', m', h1, h2, h3, h4, h5, h6, h7⟩
              refine ⟨y', m', h1, h2, ?_, h4, h5, h6, h7⟩
              rcases eq_or_lt_of_le h3 with heq | hlt
              · exfalso
                have hcomp : y' = y ∧ m' = m := by omega
                rw [hcomp.1, hcomp.2, hoccv] at h5
                injection h5 with h5'
                rw [← h5'] at h6
                rw [h6] at hset
                exact absurd hset (by simp)
              · omega
          · rw [if_neg hset]
            have hsetf : settled occ = false := by
              cases hsv : settled occ
              · rfl
              · exact absurd hsv hset
            by_cases hdue : (strLt occ todayString ||
                (includeToday && occ == todayString)) = true
            · rw [if_pos hdue]
              constructor
              · intro o
                rw [List.mem_cons, ihs.1 o]
                constructor
                · rintro (rfl | ⟨y', m', h1, h2, h3, h4, h5, h6, h7⟩)
                  · refine ⟨y, m, hm0, hm1, by omega, by omega, hoccv, hsetf, ?_⟩
                    rcases Bool.or_eq_true_iff.mp hdue with hd | hd
                    · exact Or.inl hd
                    · right
                      rw [Bool.and_eq_true] at hd
                      exact ⟨hd.1, by simpa using hd.2⟩
                  · exact ⟨y', m', h1, h2, by omega, h4, h5, h6, h7⟩
                · rintro ⟨y', m', h1, h2, h3, h4, h5, h6, h7⟩
                  rcases eq_or_lt_of_le h3 with heq | hlt
                  · have hcomp : y' = y ∧ m' = m := by omega
                    rw [hcomp.1, hcomp.2, hoccv] at h5
                    injection h5 with h5'
                    exact Or.inl h5'.symm
                  · exact Or.inr ⟨y', m', h1, h2, by omega, h4, h5, h6, h7⟩
              · rw [List.pairwise_cons]
                refine ⟨?_, ihs.2⟩
                intro o' ho'
                obtain ⟨y', m', h1, h2, h3, h4, h5, h6, h7⟩ := (ihs.1 o').mp ho'
                obtain ⟨dd', hdd'1, hdd'2, ho'eq⟩ :=
                  hocc y' m' o' (by omega) (by omega) h1 h2 h5
                obtain ⟨dd, hdd1, hdd2, hoeq⟩ := hocc y m occ hy hy9 hm0 hm1 hoccv
                rw [hoeq, ho'eq]
                exact formatDateString_lt y m dd y' m' dd' (by omega) (by omega) (by omega)
                  (by omega) hm0 hm1 h1 h2 hdd1 hdd2 hdd'1 hdd'2 (by omega)
            · rw [if_neg hdue]
              refine ⟨?_, ihs.2⟩
              intro o
              rw [ihs.1 o]
              constructor
              · rintro ⟨y', m', h1, h2, h3, h4, h5, h6, h7⟩
                exact ⟨y', m', h1, h2, by omega, h4, h5, h6, h7⟩
              · rintro ⟨y', m', h1, h2, h3, h4, h5, h6, h7⟩
                refine ⟨y', m', h1, h2, ?_, h4, h5, h6, h7⟩
                rcases eq_or_lt_of_le h3 with heq | hlt
                · exfalso
                  have hcomp : y' = y ∧ m' = m := by omega
                  rw [hcomp.1, hcomp.2, hoccv] at h5
                  injection h5 with h5'
                  apply hdue
                  rw [Bool.or_eq_true_iff]
                  rcases h7 with hd | hd
                  · left
                    rw [h5']
                    exact hd
                  · right
                    rw [Bool.and_eq_true]
                    refine ⟨hd.1, ?_⟩
                    rw [h5']
                    exact beq_iff_eq.mpr hd.2
                · omega
    · rw [if_neg hguard]
      have hgt : ¬(y * 12 + m ≤ ty * 12 + tm) := fun hc =>
        hguard ((tripleLe_day1 y m ty tm hm0 hm1 htm0 htm1).mpr hc)
      constructor
      · intro o
        constructor
        · intro ho
          exact absurd ho (List.not_mem_nil o)
        · rintro ⟨y', m', h1, h2, h3, h4, h5, h6, h7⟩
          exfalso
          omega
      · exact List.Pairwise.nil

theorem getDuePayment_invalid (p : Payment) (todayDate : JSDate) (incl : Bool)
    (hparse : parseDateString p.date = none) :
    getDuePaymentOccurrencesUpToDate p todayDate incl = [] := by
  unfold getDuePaymentOccurrencesUpToDate
  rw [hparse]

theorem getDueIncome_invalid (inc : Income) (todayDate : JSDate) (incl : Bool)
    (hparse : parseDateString inc.date = none) :
    getDueIncomeOccurrencesUpToDate inc todayDate incl = [] := by
  unfold getDueIncomeOccurrencesUpToDate
  rw [hparse]

theorem getDuePayment_eq_loop (p : Payment) (incl : Bool) (yb mb db ty tm td : Int)
    (hfreq : p.frequency ≠ "once") (hparse : parseDateString p.date = some (yb, mb, db))
    (hyb : 100 ≤ yb) (hty : 100 ≤ ty) (htm0 : 0 ≤ tm) (htm1 : tm ≤ 11) :
    getDuePaymentOccurrencesUpToDate p (some (ty, tm, td)) incl =
      dueScanLoop (fun probe => getPaymentOccurrenceForMonth p (some probe))
        (fun o => isOccurrencePaid p o) (formatDateString (some (ty, tm, td))) incl
        (ty, tm, 1) dueScanFuel (yb, mb, 1) := by
  have hcanon := parse_canonical _ _ hparse
  obtain ⟨hc1, hc2, hc3, hc4⟩ := hcanon
  simp only at hc1 hc2
  have hb := daysInMonth_bounds yb mb
  have key : getDuePaymentOccurrencesUpToDate p (some (ty, tm, td)) incl =
      dueScanLoop (fun probe => getPaymentOccurrenceForMonth p (some probe))
        (fun o => isOccurrencePaid p o) (formatDateString (some (ty, tm, td))) incl
        (mkJSDate ty tm 1) dueScanFuel (mkJSDate yb mb 1) := by
    unfold getDuePaymentOccurrencesUpToDate
    rw [hparse]
    show (if p.frequency = "once" then
        (if ((strLt (formatDateString (some (yb, mb, db))) (formatDateString (some (ty, tm, td))) ||
              incl && (formatDateString (some (yb, mb, db)) ==
                formatDateString (some (ty, tm, td)))) &&
              !isOccurrencePaid p (formatDateString (some (yb, mb, db)))) = true then
          [formatDateString (some (yb, mb, db))] else [])
      else
        dueScanLoop (fun probe => getPaymentOccurrenceForMonth p (some probe))
          (fun o => isOccurrencePaid p o) (formatDateString (some (ty, tm, td))) incl
          (mkJSDate ty tm 1) dueScanFuel (mkJSDate yb mb 1)) = _
    rw [if_neg hfreq]
  rw [key, mkJSDate_eval ty tm 1 hty htm0 htm1 (by omega)
      (by have := daysInMonth_bounds ty tm; omega),
    mkJSDate_eval yb mb 1 hyb hc1 hc2 (by omega) (by omega)]

theorem getDueIncome_eq_loop (inc : Income) (incl : Bool) (yb mb db ty tm td : Int)
    (hfreq : inc.frequency ≠ "once") (hparse : parseDateString inc.date = some (yb, mb, db))
    (hyb : 100 ≤ yb) (hty : 100 ≤ ty) (htm0 : 0 ≤ tm) (htm1 : tm ≤ 11) :
    getDueIncomeOccurrencesUpToDate inc (some (ty, tm, td)) incl =
      dueScanLoop (fun probe => getIncomeOccurrenceForMonth inc (some probe))
        (fun o => isIncomeOccurrenceReceived inc o) (formatDateString (some (ty, tm, td))) incl
        (ty, tm, 1) dueScanFuel (yb, mb, 1) := by
  have hcanon := parse_canonical _ _ hparse
  obtain ⟨hc1, hc2, hc3, hc4⟩ := hcanon
  simp only at hc1 hc2
  have hb := daysInMonth_bounds yb mb
  have key : getDueIncomeOccurrencesUpToDate inc (some (ty, tm, td)) incl =
      dueScanLoop (fun probe => getIncomeOccurrenceForMonth inc (some probe))
        (fun o => isIncomeOccurrenceReceived inc o) (formatDateString (some (ty, tm, td))) incl
        (mkJSDate ty tm 1) dueScanFuel (mkJSDate yb mb 1) := by
    unfold getDueIncomeOccurrencesUpToDate
    rw [hparse]
    show (if inc.frequency = "once" then
        (if ((strLt (formatDateString (some (yb, mb, db))) (formatDateString (some (ty, tm, td))) ||
              incl && (formatDateString (some (yb, mb, db)) ==
                formatDateString (some (ty, tm, td)))) &&
              !isIncomeOccurrenceReceived inc (formatDateString (some (yb, mb, db)))) = true then
          [formatDateString (some (yb, mb, db))] else [])
      else
        dueScanLoop (fun probe => getIncomeOccurrenceForMonth inc (some probe))
          (fun o => isIncomeOccurrenceReceived inc o) (formatDateString (some (ty, tm, td))) incl
          (mkJSDate ty tm 1) dueScanFuel (mkJSDate yb mb 1)) = _
    rw [if_neg hfreq]
  rw [key, mkJSDate_eval ty tm 1 hty htm0 htm1 (by omega)
      (by have := daysInMonth_bounds ty tm; omega),
    mkJSDate_eval yb mb 1 hyb hc1 hc2 (by omega) (by omega)]

/-! ### Settlement helper lemmas -/

theorem pairwise_strLt_nodup (l : List String)
    (h : List.Pairwise (fun a b => strLt a b = true) l) : l.Nodup := by
  refine h.imp ?_
  intro a b hab heq
  rw [heq] at hab
  have hirr := charListLt_irrefl b.data
  rw [show strLt b b = charListLt b.data b.data from rfl, hirr] at hab
  exact absurd hab (by simp)

theorem addPaidOccurrence_mem (p : Payment) (occ : String) :
    isOccurrencePaid (addPaidOccurrence p occ) occ = true := by
  unfold addPaidOccurrence
  cases hpd : p.paidDates with
  | none =>
    show isOccurrencePaid (if ([] : List String).contains occ = true then _ else _) occ = true
    rw [if_neg (by simp)]
    show (sortOccurrences ([] ++ [occ])).contains occ = true
    exact List.elem_iff.mpr ((mem_sortOccurrences occ _).mpr (by simp))
  | some l =>
    show isOccurrencePaid (if l.contains occ = true then _ else _) occ = true
    by_cases hc : l.contains occ = true
    · rw [if_pos hc]
      exact hc
    · rw [if_neg hc]
      show (sortOccurrences (l ++ [occ])).contains occ = true
      exact List.elem_iff.mpr ((mem_sortOccurrences occ _).mpr (by simp))

theorem addReceivedOccurrence_mem (inc : Income) (occ : String) :
    isIncomeOccurrenceReceived (addReceivedOccurrence inc occ) occ = true := by
  unfold addReceivedOccurrence
  cases hpd : inc.receivedDates with
  | none =>
    show isIncomeOccurrenceReceived (if ([] : List String).contains occ = true then _ else _)
      occ = true
    rw [if_neg (by simp)]
    show (sortOccurrences ([] ++ [occ])).contains occ = true
    exact List.elem_iff.mpr ((mem_sortOccurrences occ _).mpr (by simp))
  | some l =>
    show isIncomeOccurrenceReceived (if l.contains occ = true then _ else _) occ = true
    by_cases hc : l.contains occ = true
    · rw [if_pos hc]
      exact hc
    · rw [if_neg hc]
      show (sortOccurrences (l ++ [occ])).contains occ = true
      exact List.elem_iff.mpr ((mem_sortOccurrences occ _).mpr (by simp))

/-! ### Exactness of the category-totals fold -/

theorem totalsStep_fold : ∀ (entries : List LedgerEntry) (acc : String → ℚ),
    (∀ c, ∃ n : Int, acc c = (n : ℚ) / 100) →
    (∀ e ∈ entries, ∃ n : Int, e.amount = (n : ℚ) / 100) →
    ∀ cat, List.foldl totalsStep acc entries cat =
      acc cat + ((entries.filter (fun e => jsCategory e == cat)).map LedgerEntry.amount).sum := by
  intro entries
  induction entries with
  | nil =>
    intro acc hacc hent cat
    simp
  | cons e es ih =>
    intro acc hacc hent cat
    rw [List.foldl_cons]
    have hacc' : ∀ c, ∃ n : Int, totalsStep acc e c = (n : ℚ) / 100 := by
      intro c
      show ∃ n : Int, (if c = jsCategory e
        then roundCurrency (acc (jsCategory e) + e.amount) else acc c) = (n : ℚ) / 100
      by_cases hc : c = jsCategory e
      · rw [if_pos hc]
        exact ⟨⌊(acc (jsCategory e) + e.amount) * 100 + 1 / 2⌋, rfl⟩
      · rw [if_neg hc]
        exact hacc c
    rw [ih (totalsStep acc e) hacc' (fun x hx => hent x (List.mem_cons_of_mem e hx)) cat]
    by_cases hc : cat = jsCategory e
    · have hstep : totalsStep acc e cat = acc cat + e.amount := by
        show (if cat = jsCategory e
          then roundCurrency (acc (jsCategory e) + e.amount) else acc cat) = _
        rw [if_pos hc, ← hc]
        obtain ⟨n, hn⟩ := hacc cat
        obtain ⟨m, hm⟩ := hent e (List.mem_cons_self e es)
        refine roundCurrency_twoDec _ (n + m) ?_
        rw [hn, hm]
        push_cast
        ring
      have hfil : (e :: es).filter (fun x => jsCategory x == cat) =
          e :: es.filter (fun x => jsCategory x == cat) := by
        rw [List.filter_cons_of_pos]
        exact beq_iff_eq.mpr hc.symm
      rw [hstep, hfil, List.map_cons, List.sum_cons]
      ring
    · have hstep : totalsStep acc e cat = acc cat := by
        show (if cat = jsCategory e
          then roundCurrency (acc (jsCategory e) + e.amount) else acc cat) = _
        rw [if_neg hc]
      have hfil : (e :: es).filter (fun x => jsCategory x == cat) =
          es.filter (fun x => jsCategory x == cat) := by
        rw [List.filter_cons_of_neg]
        simp only [beq_iff_eq]
        exact fun he => hc he.symm
      rw [hstep, hfil]

/-! ### Claim theorems -/

/-- Example one-off payment used to refute claim C1 as stated. -/
def c1OncePayment : Payment :=
  { date := "2025-03-10", amount := some 100, frequency := "once", months := none,
    paidDates := some [], deleteFlag := false }

/-- C1 (counterexample): settling a `once` payment marks it for deletion
and returns its amount, but a second settlement attempt on the retained
object returns the amount again (here `100`), not `0` as the claim
states, because once-settlement never records the occurrence in the
settled-date set. -/
theorem c1_counterexample :
    (settlePaymentOccurrence c1OncePayment "2025-03-10").2 = 100 ∧
    (settlePaymentOccurrence c1OncePayment "2025-03-10").1.deleteFlag = true ∧
    (settlePaymentOccurrence (settlePaymentOccurrence c1OncePayment "2025-03-10").1
      "2025-03-10").2 = 100 ∧
    ¬(settlePaymentOccurrence (settlePaymentOccurrence c1OncePayment "2025-03-10").1
      "2025-03-10").2 = 0 := by
  refine ⟨?_, ?_, ?_, ?_⟩ <;> decide

/-- C1 (amended): for a `once` obligation with an unsettled occurrence,
`settlePaymentOccurrence`/`settleIncomeOccurrence` flags the obligation
for deletion and returns its amount; if the caller mistakenly retains the
object, a second settlement attempt with the same occurrence date again
returns the amount (not `0`), since the occurrence is never inserted into
the settled-date set — a `0` delta is only returned when the occurrence
is already in the settled-date set. -/
theorem c1_amended_once_settlement :
    (∀ (p : Payment) (occ : String), p.frequency = "once" →
      isOccurrencePaid p occ = false →
      settlePaymentOccurrence p occ =
        ({ p with deleteFlag := true }, parseFloatOrZero p.amount) ∧
      (settlePaymentOccurrence { p with deleteFlag := true } occ).2 =
        parseFloatOrZero p.amount) ∧
    (∀ (inc : Income) (occ : String), inc.frequency = "once" →
      isIncomeOccurrenceReceived inc occ = false →
      settleIncomeOccurrence inc occ =
        ({ inc with deleteFlag := true }, parseFloatOrZero inc.amount) ∧
      (settleIncomeOccurrence { inc with deleteFlag := true } occ).2 =
        parseFloatOrZero inc.amount) := by
  constructor
  · intro p occ hf hp
    have hp' : isOccurrencePaid { p with deleteFlag := true } occ = false := hp
    have hf' : ({ p with deleteFlag := true } : Payment).frequency = "once" := hf
    constructor
    · unfold settlePaymentOccurrence
      rw [if_neg (by rw [hp]; simp), if_pos hf]
    · unfold settlePaymentOccurrence
      rw [if_neg (by rw [hp']; simp), if_pos hf']
  · intro inc occ hf hp
    have hp' : isIncomeOccurrenceReceived { inc with deleteFlag := true } occ = false := hp
    have hf' : ({ inc with deleteFlag := true } : Income).frequency = "once" := hf
    constructor
    · unfold settleIncomeOccurrence
      rw [if_neg (by rw [hp]; simp), if_pos hf]
    · unfold settleIncomeOccurrence
      rw [if_neg (by rw [hp']; simp), if_pos hf']

/-- C1 (witness): the amended theorem applied to a concrete one-off
payment with amount `100`. -/
theorem c1_amended_once_settlement_witness :
    (c1OncePayment.frequency = "once" ∧
      isOccurrencePaid c1OncePayment "2025-03-10" = false) ∧
    settlePaymentOccurrence c1OncePayment "2025-03-10" =
      ({ c1OncePayment with deleteFlag := true }, parseFloatOrZero c1OncePayment.amount) ∧
    (settlePaymentOccurrence { c1OncePayment with deleteFlag := true } "2025-03-10").2 =
      parseFloatOrZero c1OncePayment.amount :=
  ⟨⟨rfl, by decide⟩,
    c1_amended_once_settlement.1 c1OncePayment "2025-03-10" rfl (by decide)⟩

/-- C2: settling an occurrence date that is already present in the
settled-date set returns delta `0` and leaves the obligation record
completely unchanged, for payments and incomes alike. -/
theorem c2_duplicate_settlement_noop :
    (∀ (p : Payment) (occ : String) (l : List String), p.paidDates = some l → occ ∈ l →
      settlePaymentOccurrence p occ = (p, 0)) ∧
    (∀ (inc : Income) (occ : String) (l : List String), inc.receivedDates = some l →
      occ ∈ l → settleIncomeOccurrence inc occ = (inc, 0)) := by
  constructor
  · intro p occ l hl hmem
    have hp : isOccurrencePaid p occ = true := by
      unfold isOccurrencePaid
      rw [hl]
      exact List.elem_iff.mpr hmem
    unfold settlePaymentOccurrence
    rw [if_pos hp]
  · intro inc occ l hl hmem
    have hp : isIncomeOccurrenceReceived inc occ = true := by
      unfold isIncomeOccurrenceReceived
      rw [hl]
      exact List.elem_iff.mpr hmem
    unfold settleIncomeOccurrence
    rw [if_pos hp]

/-- Example payment with an already-settled occurrence, for the C2
witness. -/
def c2Payment : Payment :=
  { date := "2025-01-15", amount := some 42, frequency := "monthly", months := none,
    paidDates := some ["2025-01-15"], deleteFlag := false }

/-- C2 (witness): the duplicate-settlement theorem applied to a concrete
payment whose `paidDates` already contains the occurrence. -/
theorem c2_duplicate_settlement_noop_witness :
    ("2025-01-15" ∈ (["2025-01-15"] : List String)) ∧
    settlePaymentOccurrence c2Payment "2025-01-15" = (c2Payment, 0) :=
  ⟨by decide,
    c2_duplicate_settlement_noop.1 c2Payment "2025-01-15" ["2025-01-15"] rfl (by decide)⟩

/-- C10: when the `amount` field is missing or unparseable (so
`parseFloat` yields `NaN` and `|| 0` turns it into `0`), settlement
returns delta `0` — never `NaN` — while the settlement side effect still
takes place: a `once` obligation is flagged for deletion, a recurring one
gets the occurrence recorded as settled. -/
theorem c10_missing_amount_zero_delta :
    (∀ (p : Payment) (occ : String), p.amount = none →
      (settlePaymentOccurrence p occ).2 = 0 ∧
      (isOccurrencePaid p occ = false → p.frequency = "once" →
        (settlePaymentOccurrence p occ).1 = { p with deleteFlag := true }) ∧
      (isOccurrencePaid p occ = false → p.frequency ≠ "once" →
        isOccurrencePaid (settlePaymentOccurrence p occ).1 occ = true)) ∧
    (∀ (inc : Income) (occ : String), inc.amount = none →
      (settleIncomeOccurrence inc occ).2 = 0 ∧
      (isIncomeOccurrenceReceived inc occ = false → inc.frequency = "once" →
        (settleIncomeOccurrence inc occ).1 = { inc with deleteFlag := true }) ∧
      (isIncomeOccurrenceReceived inc occ = false → inc.frequency ≠ "once" →
        isIncomeOccurrenceReceived (settleIncomeOccurrence inc occ).1 occ = true)) := by
  constructor
  · intro p occ ha
    have hz : parseFloatOrZero p.amount = 0 := by rw [ha]; rfl
    refine ⟨?_, ?_, ?_⟩
    · unfold settlePaymentOccurrence
      by_cases hp : isOccurrencePaid p occ = true
      · rw [if_pos hp]
      · rw [if_neg hp]
        by_cases hf : p.frequency = "once"
        · rw [if_pos hf]
          exact hz
        · rw [if_neg hf]
          exact hz
    · intro hp hf
      unfold settlePaymentOccurrence
      rw [if_neg (by rw [hp]; simp), if_pos hf]
    · intro hp hf
      unfold settlePaymentOccurrence
      rw [if_neg (by rw [hp]; simp), if_neg hf]
      exact addPaidOccurrence_mem p occ
  · intro inc occ ha
    have hz : parseFloatOrZero inc.amount = 0 := by rw [ha]; rfl
    refine ⟨?_, ?_, ?_⟩
    · unfold settleIncomeOccurrence
      by_cases hp : isIncomeOccurrenceReceived inc occ = true
      · rw [if_pos hp]
      · rw [if_neg hp]
        by_cases hf : inc.frequency = "once"
        · rw [if_pos hf]
          exact hz
        · rw [if_neg hf]
          exact hz
    · intro hp hf
      unfold settleIncomeOccurrence
      rw [if_neg (by rw [hp]; simp), if_pos hf]
    · intro hp hf
      unfold settleIncomeOccurrence
      rw [if_neg (by rw [hp]; simp), if_neg hf]
      exact addReceivedOccurrence_mem inc occ

/-- Example payment with a missing amount, for the C10 witness. -/
def c10Payment : Payment :=
  { date := "2025-01-15", amount := none, frequency := "monthly", months := none,
    paidDates := some [], deleteFlag := false }

/-- C10 (witness): a recurring payment with a missing amount settles with
delta `0` and the occurrence is recorded. -/
theorem c10_missing_amount_zero_delta_witness :
    c10Payment.amount = none ∧
    (settlePaymentOccurrence c10Payment "2025-01-15").2 = 0 ∧
    isOccurrencePaid (settlePaymentOccurrence c10Payment "2025-01-15").1 "2025-01-15" =
      true :=
  ⟨rfl, (c10_missing_amount_zero_delta.1 c10Payment "2025-01-15" rfl).1,
    (c10_missing_amount_zero_delta.1 c10Payment "2025-01-15" rfl).2.2 (by decide)
      (by decide)⟩

/-- C8: inserting an occurrence date into a sorted, duplicate-free
settled-date set (`addPaidOccurrence`/`addReceivedOccurrence`) preserves
the invariant: the result is still sorted in ascending JavaScript string
order with no duplicates, contains the inserted date, contains exactly
the old dates plus the inserted one, and inserting an already-present
date changes nothing. -/
theorem c8_markSettled_sorted_invariant :
    (∀ (p : Payment) (occ : String) (l : List String), p.paidDates = some l →
      List.Pairwise (fun a b => strLt a b = true) l →
      ∃ l', (addPaidOccurrence p occ).paidDates = some l' ∧
        List.Pairwise (fun a b => strLt a b = true) l' ∧ l'.Nodup ∧ occ ∈ l' ∧
        (∀ x, x ∈ l' ↔ x ∈ l ∨ x = occ) ∧ (occ ∈ l → addPaidOccurrence p occ = p)) ∧
    (∀ (inc : Income) (occ : String) (l : List String), inc.receivedDates = some l →
      List.Pairwise (fun a b => strLt a b = true) l →
      ∃ l', (addReceivedOccurrence inc occ).receivedDates = some l' ∧
        List.Pairwise (fun a b => strLt a b = true) l' ∧ l'.Nodup ∧ occ ∈ l' ∧
        (∀ x, x ∈ l' ↔ x ∈ l ∨ x = occ) ∧ (occ ∈ l → addReceivedOccurrence inc occ = inc)) := by
  constructor
  · intro p occ l hl hpw
    have key : addPaidOccurrence p occ =
        (if l.contains occ = true then { p with paidDates := some l }
         else { p with paidDates := some (sortOccurrences (l ++ [occ])) }) := by
      unfold addPaidOccurrence
      rw [hl]
    rw [key]
    by_cases hc : l.contains occ = true
    · rw [if_pos hc]
      refine ⟨l, rfl, hpw, pairwise_strLt_nodup l hpw, List.elem_iff.mp hc, ?_, ?_⟩
      · intro x
        constructor
        · exact Or.inl
        · rintro (h | rfl)
          · exact h
          · exact List.elem_iff.mp hc
      · intro _
        rw [← hl]
    · rw [if_neg hc]
      have hnot : occ ∉ l := fun hm => hc (List.elem_iff.mpr hm)
      have hnd : (l ++ [occ]).Nodup := by
        rw [List.nodup_append]
        refine ⟨pairwise_strLt_nodup l hpw, List.nodup_singleton occ, ?_⟩
        intro x hx hx2
        rw [List.mem_singleton] at hx2
        exact hnot (hx2 ▸ hx)
      have hsorted := sortOccurrences_pairwise _ hnd
      refine ⟨_, rfl, hsorted, pairwise_strLt_nodup _ hsorted,
        (mem_sortOccurrences occ _).mpr (by simp), ?_, ?_⟩
      · intro x
        rw [mem_sortOccurrences, List.mem_append, List.mem_singleton]
      · intro hmem
        exact absurd (List.elem_iff.mpr hmem) hc
  · intro inc occ l hl hpw
    have key : addReceivedOccurrence inc occ =
        (if l.contains occ = true then { inc with receivedDates := some l }
         else { inc with receivedDates := some (sortOccurrences (l ++ [occ])) }) := by
      unfold addReceivedOccurrence
      rw [hl]
    rw [key]
    by_cases hc : l.contains occ = true
    · rw [if_pos hc]
      refine ⟨l, rfl, hpw, pairwise_strLt_nodup l hpw, List.elem_iff.mp hc, ?_, ?_⟩
      · intro x
        constructor
        · exact Or.inl
        · rintro (h | rfl)
          · exact h
          · exact List.elem_iff.mp hc
      · intro _
        rw [← hl]
    · rw [if_neg hc]
      have hnot : occ ∉ l := fun hm => hc (List.elem_iff.mpr hm)
      have hnd : (l ++ [occ]).Nodup := by
        rw [List.nodup_append]
        refine ⟨pairwise_strLt_nodup l hpw, List.nodup_singleton occ, ?_⟩
        intro x hx hx2
        rw [List.mem_singleton] at hx2
        exact hnot (hx2 ▸ hx)
      have hsorted := sortOccurrences_pairwise _ hnd
      refine ⟨_, rfl, hsorted, pairwise_strLt_nodup _ hsorted,
        (mem_sortOccurrences occ _).mpr (by simp), ?_, ?_⟩
      · intro x
        rw [mem_sortOccurrences, List.mem_append, List.mem_singleton]
      · intro hmem
        exact absurd (List.elem_iff.mpr hmem) hc

/-- Example payment with a sorted settled-date set, for the C8 witness. -/
def c8Payment : Payment :=
  { date := "2025-01-15", amount := some 10, frequency := "monthly", months := none,
    paidDates := some ["2025-01-15", "2025-03-15"], deleteFlag := false }

/-- C8 (witness): the invariant-preservation theorem applied to a
concrete sorted settled-date set and a new middle occurrence. -/
theorem c8_markSettled_sorted_invariant_witness :
    List.Pairwise (fun a b => strLt a b = true) ["2025-01-15", "2025-03-15"] ∧
    (∃ l', (addPaidOccurrence c8Payment "2025-02-15").paidDates = some l' ∧
      List.Pairwise (fun a b => strLt a b = true) l' ∧ l'.Nodup ∧ "2025-02-15" ∈ l' ∧
      (∀ x, x ∈ l' ↔ x ∈ (["2025-01-15", "2025-03-15"] : List String) ∨ x = "2025-02-15") ∧
      ("2025-02-15" ∈ (["2025-01-15", "2025-03-15"] : List String) →
        addPaidOccurrence c8Payment "2025-02-15" = c8Payment)) :=
  ⟨by decide,
    c8_markSettled_sorted_invariant.1 c8Payment "2025-02-15" ["2025-01-15", "2025-03-15"]
      rfl (by decide)⟩

/-- C9: malformed obligation records degrade gracefully: an unknown or
missing frequency yields no occurrence, a `selected` payment with a
non-array `months` yields no occurrence, a non-array settled-date set
makes the settled-membership test false, and an unparseable anchor date
makes the occurrence calculators return `null` and the due-occurrence
scanners return an empty list. -/
theorem c9_malformed_graceful :
    (∀ (p : Payment) (monthDate : JSDate), p.frequency ≠ "once" →
      p.frequency ≠ "monthly" → p.frequency ≠ "selected" →
      getPaymentOccurrenceForMonth p monthDate = none) ∧
    (∀ (inc : Income) (monthDate : JSDate), inc.frequency ≠ "once" →
      inc.frequency ≠ "monthly" → getIncomeOccurrenceForMonth inc monthDate = none) ∧
    (∀ (p : Payment) (monthDate : JSDate), p.frequency = "selected" → p.months = none →
      getPaymentOccurrenceForMonth p monthDate = none) ∧
    (∀ (p : Payment) (occ : String), p.paidDates = none →
      isOccurrencePaid p occ = false) ∧
    (∀ (inc : Income) (occ : String), inc.receivedDates = none →
      isIncomeOccurrenceReceived inc occ = false) ∧
    (∀ (p : Payment) (monthDate : JSDate), parseDateString p.date = none →
      getPaymentOccurrenceForMonth p monthDate = none) ∧
    (∀ (inc : Income) (monthDate : JSDate), parseDateString inc.date = none →
      getIncomeOccurrenceForMonth inc monthDate = none) ∧
    (∀ (p : Payment) (todayDate : JSDate) (incl : Bool), parseDateString p.date = none →
      getDuePaymentOccurrencesUpToDate p todayDate incl = []) ∧
    (∀ (inc : Income) (todayDate : JSDate) (incl : Bool), parseDateString inc.date = none →
      getDueIncomeOccurrencesUpToDate inc todayDate incl = []) := by
  refine ⟨paymentOcc_unknown_freq, incomeOcc_unknown_freq, paymentOcc_selected_no_months,
    ?_, ?_, paymentOcc_invalid_anchor, incomeOcc_invalid_anchor, getDuePayment_invalid,
    getDueIncome_invalid⟩
  · intro p occ h
    unfold isOccurrencePaid
    rw [h]
  · intro inc occ h
    unfold isIncomeOccurrenceReceived
    rw [h]

/-- Malformed payment records for the C9 witness. -/
def c9BadFreqPayment : Payment :=
  { date := "2025-01-15", amount := some 5, frequency := "weekly", months := none,
    paidDates := none, deleteFlag := false }

/-- A payment whose anchor date does not parse, for the C9 witness. -/
def c9BadDatePayment : Payment :=
  { date := "2026-02-30", amount := some 5, frequency := "monthly", months := none,
    paidDates := some [], deleteFlag := false }

/-- C9 (witness): the graceful-degradation theorem applied to concrete
malformed records: an unknown `weekly` frequency, a `selected` payment
without a months array, a missing settled-date array, and an invalid
anchor date `2026-02-30`. -/
theorem c9_malformed_graceful_witness :
    getPaymentOccurrenceForMonth c9BadFreqPayment (some (2025, 0, 15)) = none ∧
    getPaymentOccurrenceForMonth
      { c9BadFreqPayment with frequency := "selected" } (some (2025, 0, 15)) = none ∧
    isOccurrencePaid c9BadFreqPayment "2025-01-15" = false ∧
    getPaymentOccurrenceForMonth c9BadDatePayment (some (2025, 0, 15)) = none ∧
    getDuePaymentOccurrencesUpToDate c9BadDatePayment (some (2025, 0, 15)) true = [] :=
  ⟨c9_malformed_graceful.1 c9BadFreqPayment (some (2025, 0, 15)) (by decide) (by decide)
      (by decide),
    c9_malformed_graceful.2.2.1 { c9BadFreqPayment with frequency := "selected" }
      (some (2025, 0, 15)) rfl rfl,
    c9_malformed_graceful.2.2.2.1 c9BadFreqPayment "2025-01-15" rfl,
    c9_malformed_graceful.2.2.2.2.2.1 c9BadDatePayment (some (2025, 0, 15)) (by decide),
    c9_malformed_graceful.2.2.2.2.2.2.2.1 c9BadDatePayment (some (2025, 0, 15)) true
      (by decide)⟩

/-- C6: `parseDateString` extracts the textual year/month/day, constructs
the calendar date, and returns the Invalid sentinel whenever the
constructed date's components do not round-trip to the parsed numbers; in
particular `31/02/2026`, `2026-13-01` and `2026-02-30` are Invalid, the
empty string is Invalid, and a non-string argument is Invalid.  As a
total Lean function it never throws. -/
theorem c6_parse_strict_validity :
    (∀ (s : String) (y m d : Int), parseDateFields (trimChars s.data) = some (y, m, d) →
      mkJSDate y (m - 1) d ≠ (y, m - 1, d) → parseDateString s = none) ∧
    parseDateString "31/02/2026" = none ∧
    parseDateString "2026-13-01" = none ∧
    parseDateString "2026-02-30" = none ∧
    parseDateString "" = none ∧
    parseDateValue none = none := by
  refine ⟨?_, by decide, by decide, by decide, by decide, rfl⟩
  intro s y m d hfields hne
  cases hres : parseDateString s with
  | none => rfl
  | some t =>
    exfalso
    obtain ⟨y', m', d', hf', ht1, ht2⟩ := parseDateString_some s t hres
    rw [hfields] at hf'
    injection hf' with hf''
    have hy : y = y' := congrArg (fun q : Int × Int × Int => q.1) hf''
    have hm : m = m' := congrArg (fun q : Int × Int × Int => q.2.1) hf''
    have hd : d = d' := congrArg (fun q : Int × Int × Int => q.2.2) hf''
    subst hy; subst hm; subst hd
    exact hne (ht1.symm.trans ht2)

/-- C6 (witness): the round-trip-mismatch theorem applied to the concrete
input `2026-02-30`, whose extracted fields construct March 2 instead. -/
theorem c6_parse_strict_validity_witness :
    parseDateFields (trimChars ("2026-02-30" : String).data) = some (2026, 2, 30) ∧
    parseDateString "2026-02-30" = none :=
  ⟨by decide,
    c6_parse_strict_validity.1 "2026-02-30" 2026 2 30 (by decide) (by decide)⟩

/-- C5: for any sequence of ledger entries whose amounts are exact
two-decimal currency values, the recomputed category-totals mapping sends
every category to the exact sum of that category's entry amounts, with
entries lacking a category (or with an empty category) counted under
`"inne"` via `jsCategory`; the step-wise rounding never loses precision
because all partial sums stay two-decimal. -/
theorem c5_totals_consistency :
    ∀ (entries : List LedgerEntry),
      (∀ e ∈ entries, ∃ n : Int, e.amount = (n : ℚ) / 100) →
      ∀ cat, buildCategoryTotals entries cat =
        ((entries.filter (fun e => jsCategory e == cat)).map LedgerEntry.amount).sum := by
  intro entries h cat
  have hfold := totalsStep_fold entries (fun _ => 0) (fun c => ⟨0, by norm_num⟩) h cat
  show List.foldl totalsStep (fun _ => 0) entries cat = _
  rw [hfold]
  exact zero_add _

/-- Ledger entries (one lacking a category) for the C5 witness. -/
def c5Entries : List LedgerEntry :=
  [{ amount := ((2535 : ℤ) : ℚ) / 100, category := some "jedzenie" },
   { amount := ((1000 : ℤ) : ℚ) / 100, category := none },
   { amount := ((465 : ℤ) : ℚ) / 100, category := some "jedzenie" }]

/-- C5 (witness): the totals-consistency theorem applied to a concrete
entry list with two-decimal amounts `25.35`, `10`, `4.65`; the entry
without a category is counted under `inne`. -/
theorem c5_totals_consistency_witness :
    (∀ e ∈ c5Entries, ∃ n : Int, e.amount = (n : ℚ) / 100) ∧
    buildCategoryTotals c5Entries "jedzenie" =
      ((c5Entries.filter (fun e => jsCategory e == "jedzenie")).map LedgerEntry.amount).sum ∧
    buildCategoryTotals c5Entries "inne" =
      ((c5Entries.filter (fun e => jsCategory e == "inne")).map LedgerEntry.amount).sum := by
  have hyp : ∀ e ∈ c5Entries, ∃ n : Int, e.amount = (n : ℚ) / 100 := by
    intro e he
    simp only [c5Entries, List.mem_cons, List.not_mem_nil, or_false] at he
    rcases he with rfl | rfl | rfl
    · exact ⟨2535, rfl⟩
    · exact ⟨1000, rfl⟩
    · exact ⟨465, rfl⟩
  exact ⟨hyp, c5_totals_consistency c5Entries hyp "jedzenie",
    c5_totals_consistency c5Entries hyp "inne"⟩

/-- Monthly payments anchored on the 31st (non-leap and leap years) and
one anchored after the target month, for C3. -/
def c3Payment31 : Payment :=
  { date := "2026-01-31", amount := some 10, frequency := "monthly", months := none,
    paidDates := none, deleteFlag := false }

/-- Leap-year variant of the C3 example payment. -/
def c3Payment31Leap : Payment :=
  { date := "2024-01-31", amount := some 10, frequency := "monthly", months := none,
    paidDates := none, deleteFlag := false }

/-- A monthly payment anchored after the queried month, for C3. -/
def c3PaymentLater : Payment :=
  { date := "2026-03-15", amount := some 10, frequency := "monthly", months := none,
    paidDates := none, deleteFlag := false }

/-- C3: for a `monthly` payment with a valid anchor, the occurrence for a
target month has day `min(anchor day, last actual day of the target
month)` and is returned exactly when that clamped date is on or after the
anchor date, otherwise `null`; in particular an anchor on January 31
yields `2026-02-28` for February 2026 and `2024-02-29` for leap-year
February 2024, and an anchor after the target month yields `null`. -/
theorem c3_monthly_clamp :
    (∀ (p : Payment) (yb mb db ty tm td : Int), p.frequency = "monthly" →
      parseDateString p.date = some (yb, mb, db) → 100 ≤ ty → 0 ≤ tm → tm ≤ 11 →
      getPaymentOccurrenceForMonth p (some (ty, tm, td)) =
        (if tripleLe (yb, mb, db) (ty, tm, min db (daysInMonth ty tm)) then
          some (formatDateString (some (ty, tm, min db (daysInMonth ty tm)))) else none)) ∧
    getPaymentOccurrenceForMonth c3Payment31 (some (2026, 1, 5)) = some "2026-02-28" ∧
    getPaymentOccurrenceForMonth c3Payment31Leap (some (2024, 1, 5)) = some "2024-02-29" ∧
    getPaymentOccurrenceForMonth c3PaymentLater (some (2026, 1, 5)) = none := by
  refine ⟨?_, by decide, by decide, by decide⟩
  intro p yb mb db ty tm td hf hparse hty htm0 htm1
  exact getPaymentOccurrenceForMonth_monthly p yb mb db ty tm td hf hparse hty htm0 htm1

/-- C3 (witness): the clamp characterization applied to the January 31
anchor and February 2026. -/
theorem c3_monthly_clamp_witness :
    parseDateString c3Payment31.date = some (2026, 0, 31) ∧
    getPaymentOccurrenceForMonth c3Payment31 (some (2026, 1, 5)) =
      (if tripleLe (2026, 0, 31) (2026, 1, min 31 (daysInMonth 2026 1)) then
        some (formatDateString (some (2026, 1, min 31 (daysInMonth 2026 1)))) else none) :=
  ⟨by decide,
    c3_monthly_clamp.1 c3Payment31 2026 0 31 2026 1 5 rfl (by decide) (by decide)
      (by decide) (by decide)⟩

/-- A `selected` payment with months March, June, September, for C7. -/
def c7Payment : Payment :=
  { date := "2025-01-01", amount := some 10, frequency := "selected",
    months := some [3, 6, 9], paidDates := none, deleteFlag := false }

/-- C7: a `selected` payment produces a non-null occurrence for a target
month only if the month's 1-based number is a member of the `months`
array, and when it is a member the occurrence is computed by exactly the
same clamp rule as `monthly`; concretely, with `months = [3, 6, 9]` the
twelve months of 2025 yield occurrences only in March, June and
September. -/
theorem c7_selected_exclusivity :
    (∀ (p : Payment) (y m d0 : Int) (o : String), p.frequency = "selected" → 100 ≤ y →
      0 ≤ m → m ≤ 11 → getPaymentOccurrenceForMonth p (some (y, m, d0)) = some o →
      ∃ l, p.months = some l ∧ (m + 1) ∈ l) ∧
    (∀ (p : Payment) (l : List Int) (y m d0 : Int), p.frequency = "selected" →
      p.months = some l → 100 ≤ y → 0 ≤ m → m ≤ 11 → (m + 1) ∈ l →
      getPaymentOccurrenceForMonth p (some (y, m, d0)) =
        getPaymentOccurrenceForMonth { p with frequency := "monthly" } (some (y, m, d0))) ∧
    (getPaymentOccurrenceForMonth c7Payment (some (2025, 0, 10)) = none ∧
      getPaymentOccurrenceForMonth c7Payment (some (2025, 1, 10)) = none ∧
      getPaymentOccurrenceForMonth c7Payment (some (2025, 2, 10)) = some "2025-03-01" ∧
      getPaymentOccurrenceForMonth c7Payment (some (2025, 3, 10)) = none ∧
      getPaymentOccurrenceForMonth c7Payment (some (2025, 4, 10)) = none ∧
      getPaymentOccurrenceForMonth c7Payment (some (2025, 5, 10)) = some "2025-06-01" ∧
      getPaymentOccurrenceForMonth c7Payment (some (2025, 6, 10)) = none ∧
      getPaymentOccurrenceForMonth c7Payment (some (2025, 7, 10)) = none ∧
      getPaymentOccurrenceForMonth c7Payment (some (2025, 8, 10)) = some "2025-09-01" ∧
      getPaymentOccurrenceForMonth c7Payment (some (2025, 9, 10)) = none ∧
      getPaymentOccurrenceForMonth c7Payment (some (2025, 10, 10)) = none ∧
      getPaymentOccurrenceForMonth c7Payment (some (2025, 11, 10)) = none) := by
  refine ⟨?_, ?_, by decide⟩
  · intro p y m d0 o hf hy hm0 hm1 h
    exact getPaymentOccurrenceForMonth_selected_mem p y m d0 o hf hy hm0 hm1 h
  · intro p l y m d0 hf hfm hy hm0 hm1 hmem
    exact getPaymentOccurrenceForMonth_selected_on p l y m d0 hf hfm hy hm0 hm1 hmem

/-- C7 (witness): in a selected month (March 2025) the occurrence agrees
with the monthly clamp rule on the same payment. -/
theorem c7_selected_exclusivity_witness :
    ((3 : Int) ∈ ([3, 6, 9] : List Int)) ∧
    getPaymentOccurrenceForMonth c7Payment (some (2025, 2, 10)) =
      getPaymentOccurrenceForMonth { c7Payment with frequency := "monthly" }
        (some (2025, 2, 10)) :=
  ⟨by decide,
    c7_selected_exclusivity.2.1 c7Payment [3, 6, 9] 2025 2 10 rfl rfl (by decide)
      (by decide) (by decide) (by decide)⟩

/-- The monthly payment of the C4 scanner-completeness example. -/
def c4Payment : Payment :=
  { date := "2025-01-15", amount := some 120, frequency := "monthly", months := none,
    paidDates := some [], deleteFlag := false }

/-- C4: for a recurring obligation with a valid anchor, the
due-occurrence scanners return, in strictly ascending (chronological)
string order, exactly the per-month occurrences of the months from the
anchor month through the reference month inclusive that are unsettled and
due (strictly before the reference date string, or equal to it when the
include flag is set); in particular a monthly payment anchored
`2025-01-15` with no settled dates scanned up to `2025-04-15` inclusively
yields exactly the four occurrences of January through April. -/
theorem c4_due_scanner_exact :
    (∀ (p : Payment) (incl : Bool) (yb mb db ty tm td : Int),
      p.frequency ≠ "once" → parseDateString p.date = some (yb, mb, db) → 1000 ≤ yb →
      100 ≤ ty → ty ≤ 9999 → 0 ≤ tm → tm ≤ 11 →
      List.Pairwise (fun a b => strLt a b = true)
        (getDuePaymentOccurrencesUpToDate p (some (ty, tm, td)) incl) ∧
      (∀ o, o ∈ getDuePaymentOccurrencesUpToDate p (some (ty, tm, td)) incl ↔
        ∃ y' m' : Int, 0 ≤ m' ∧ m' ≤ 11 ∧ yb * 12 + mb ≤ y' * 12 + m' ∧
          y' * 12 + m' ≤ ty * 12 + tm ∧
          getPaymentOccurrenceForMonth p (some (y', m', 1)) = some o ∧
          isOccurrencePaid p o = false ∧
          (strLt o (formatDateString (some (ty, tm, td))) = true ∨
            (incl = true ∧ o = formatDateString (some (ty, tm, td)))))) ∧
    (∀ (inc : Income) (incl : Bool) (yb mb db ty tm td : Int),
      inc.frequency ≠ "once" → parseDateString inc.date = some (yb, mb, db) → 1000 ≤ yb →
      100 ≤ ty → ty ≤ 9999 → 0 ≤ tm → tm ≤ 11 →
      List.Pairwise (fun a b => strLt a b = true)
        (getDueIncomeOccurrencesUpToDate inc (some (ty, tm, td)) incl) ∧
      (∀ o, o ∈ getDueIncomeOccurrencesUpToDate inc (some (ty, tm, td)) incl ↔
        ∃ y' m' : Int, 0 ≤ m' ∧ m' ≤ 11 ∧ yb * 12 + mb ≤ y' * 12 + m' ∧
          y' * 12 + m' ≤ ty * 12 + tm ∧
          getIncomeOccurrenceForMonth inc (some (y', m', 1)) = some o ∧
          isIncomeOccurrenceReceived inc o = false ∧
          (strLt o (formatDateString (some (ty, tm, td))) = true ∨
            (incl = true ∧ o = formatDateString (some (ty, tm, td)))))) ∧
    getDuePaymentOccurrencesUpToDate c4Payment (some (2025, 3, 15)) true =
      ["2025-01-15", "2025-02-15", "2025-03-15", "2025-04-15"] := by
  refine ⟨?_, ?_, by decide⟩
  · intro p incl yb mb db ty tm td hfreq hparse hyb hty hty9 htm0 htm1
    have hcanon := parse_canonical _ _ hparse
    obtain ⟨hc1, hc2, hc3, hc4⟩ := hcanon
    simp only at hc1 hc2
    rw [getDuePayment_eq_loop p incl yb mb db ty tm td hfreq hparse (by omega) hty htm0 htm1]
    have hspec := dueScanLoop_spec
      (fun probe => getPaymentOccurrenceForMonth p (some probe))
      (fun o => isOccurrencePaid p o) (formatDateString (some (ty, tm, td))) incl ty tm
      hty9 htm0 htm1
      (fun y' m' o hy1 hy9 hm0 hm1 ho =>
        getPaymentOccurrenceForMonth_shape p y' m' 1 o (by omega) hm0 hm1 ho)
      dueScanFuel yb mb hc1 hc2 hyb (by unfold dueScanFuel; push_cast; omega)
    exact ⟨hspec.2, hspec.1⟩
  · intro inc incl yb mb db ty tm td hfreq hparse hyb hty hty9 htm0 htm1
    have hcanon := parse_canonical _ _ hparse
    obtain ⟨hc1, hc2, hc3, hc4⟩ := hcanon
    simp only at hc1 hc2
    rw [getDueIncome_eq_loop inc incl yb mb db ty tm td hfreq hparse (by omega) hty htm0 htm1]
    have hspec := dueScanLoop_spec
      (fun probe => getIncomeOccurrenceForMonth inc (some probe))
      (fun o => isIncomeOccurrenceReceived inc o) (formatDateString (some (ty, tm, td))) incl
      ty tm hty9 htm0 htm1
      (fun y' m' o hy1 hy9 hm0 hm1 ho =>
        getIncomeOccurrenceForMonth_shape inc y' m' 1 o (by omega) hm0 hm1 ho)
      dueScanFuel yb mb hc1 hc2 hyb (by unfold dueScanFuel; push_cast; omega)
    exact ⟨hspec.2, hspec.1⟩

/-- C4 (witness): the scanner-exactness theorem applied to the concrete
monthly payment of the example; the scanned output is strictly
chronologically ordered. -/
theorem c4_due_scanner_exact_witness :
    parseDateString c4Payment.date = some (2025, 0, 15) ∧
    List.Pairwise (fun a b => strLt a b = true)
      (getDuePaymentOccurrencesUpToDate c4Payment (some (2025, 3, 15)) true) :=
  ⟨by decide,
    (c4_due_scanner_exact.1 c4Payment true 2025 0 15 2025 3 15 (by decide) (by decide)
      (by decide) (by decide) (by decide) (by decide) (by decide)).1⟩

end Budget
